import Mathlib

/-!
# discord-stock-ticker: bootstrap (`main.go`) and the CoinGecko client (`utils/coin_gecko.go`)

A shallow embedding of the two Go source files.

* `main.go` is effectful: it reads the process environment, may call the fatal
  logger (which exits the process), calls the tracker constructors and the
  manager, and finally waits on a `sync.WaitGroup`.  It is embedded as a
  function from the environment to a `Run`: the list of effects performed, in
  order, together with the way the run ends.
* `utils/coin_gecko.go` builds a request, hands it to `client.Do` and decodes
  the body.  What `client.Do` does is a parameter (`Net`); the parsing of the
  URL follows `net/url` and the decoding of the body into `GeckoPriceResults`
  follows `encoding/json`.
-/

namespace StockTicker

/-! ## Process environment -/

/-- The process environment, as `os.LookupEnv` sees it: `none` is an unset
variable, `some ""` a variable set to the empty string. -/
abbrev Env := String → Option String

/-- Go `os.Getenv`: the value of the variable, `""` when it is unset. -/
def Getenv (env : Env) (key : String) : String :=
  (env key).getD ""

/-- The environment `env` with `key` set to `val`. -/
def Env.set (env : Env) (key val : String) : Env :=
  fun k => if k = key then some val else env k

/-- The empty environment: every variable unset. -/
def Env.empty : Env := fun _ => none

/-! ## `strconv` -/

/-- Value of an ASCII decimal digit. -/
def digitVal (c : Char) : Option Nat :=
  if 48 ≤ c.toNat ∧ c.toNat ≤ 57 then some (c.toNat - 48) else none

/-- The digit loop of `strconv.ParseUint` in base 10 (no underscores). -/
def parseUintAux : List Char → Nat → Option Nat
  | [], acc => some acc
  | c :: cs, acc =>
    match digitVal c with
    | some d => parseUintAux cs (acc * 10 + d)
    | none => none

/-- Go `strconv.ParseUint(s, 10, _)` before the range check: at least one digit,
digits only. -/
def parseUint (cs : List Char) : Option Nat :=
  match cs with
  | [] => none
  | _ :: _ => parseUintAux cs 0

/-- Go `strconv.ParseInt(s, 10, 64)` on the characters of `s`: an optional sign
(`+` or `-`), then decimal digits, the value within the range of a 64-bit
signed integer.  `none` stands for both the syntax and the range error. -/
def parseIntChars (cs : List Char) : Option Int :=
  match cs with
  | [] => none
  | c :: rest =>
    let neg := c = '-'
    let ds := if c = '-' ∨ c = '+' then rest else c :: rest
    match parseUint ds with
    | none => none
    | some un =>
      if neg then
        if un ≤ 2 ^ 63 then some (-(un : Int)) else none
      else
        if un < 2 ^ 63 then some (un : Int) else none

/-- Go `strconv.ParseInt(s, 10, 64)`. -/
def ParseInt (s : String) : Option Int := parseIntChars s.toList

/-- Go `strconv.Atoi` (Go `int` is 64 bits wide): same language and range as
`ParseInt(s, 10, 64)`. -/
def Atoi (s : String) : Option Int := ParseInt s

/-- Go `strconv.ParseBool`. -/
def ParseBool (s : String) : Option Bool :=
  if s = "1" ∨ s = "t" ∨ s = "T" ∨ s = "TRUE" ∨ s = "true" ∨ s = "True" then some true
  else if s = "0" ∨ s = "f" ∨ s = "F" ∨ s = "FALSE" ∨ s = "false" ∨ s = "False" then some false
  else none

/-- The decimal text of an integer, as `strconv.Itoa` writes it: the digits
of the absolute value, after a `-` for a negative number. -/
def decimal (n : Int) : String := toString n

/-- The value `env.GetBoolDefault(key, dflt)` computes: `os.LookupEnv`, then
`strconv.ParseBool`; `dflt` when the variable is unset or does not parse. -/
def boolDefault (env : Env) (key : String) (dflt : Bool) : Bool :=
  match env key with
  | some val => (ParseBool val).getD dflt
  | none => dflt

/-- The value `env.GetIntDefault(key, dflt)` computes: `os.LookupEnv`, then
`strconv.Atoi`; `dflt` when the variable is unset or does not parse. -/
def intDefault (env : Env) (key : String) (dflt : Int) : Int :=
  match env key with
  | some val => (Atoi val).getD dflt
  | none => dflt

/-! ## Effects of `main.go` -/

/-- The arguments of a tracker constructor call
(`NewStock` / `NewCrypto`: ticker, token, name, nickname, color, flashChange,
frequency). -/
structure TrackerArgs where
  ticker : String
  token : String
  name : String
  nickname : Bool
  color : Bool
  flashChange : Bool
  frequency : Int
  deriving DecidableEq, Repr

/-- One observable step of the bootstrap code. -/
inductive Event (σ : Type) where
  /-- A read of an environment variable (`os.Getenv`, `os.LookupEnv`). -/
  | readEnv (key : String)
  /-- A call of `logger.Fatal(msg)`. -/
  | fatal (msg : String)
  /-- A call of `NewStock`. -/
  | newStock (args : TrackerArgs)
  /-- A call of `NewCrypto`. -/
  | newCrypto (args : TrackerArgs)
  /-- A call of `wg.Add(n)`. -/
  | wgAdd (n : Nat)
  /-- A call of `NewManager()`. -/
  | newManager
  /-- A call of `m.addStock(key, s)`. -/
  | addStock (key : String) (s : σ)
  /-- A call of `wg.Wait()`. -/
  | wgWait
  deriving DecidableEq, Repr

/-- Is the event a tracker constructor call? -/
def Event.isConstruct {σ : Type} : Event σ → Bool
  | .newStock _ => true
  | .newCrypto _ => true
  | _ => false

/-- Is the event a registration with the manager? -/
def Event.isRegister {σ : Type} : Event σ → Bool
  | .addStock _ _ => true
  | _ => false

/-- Is the event a call of the fatal logger? -/
def Event.isFatal {σ : Type} : Event σ → Bool
  | .fatal _ => true
  | _ => false

/-- How a run ends. -/
inductive Outcome (α : Type) where
  /-- The function returned `a`. -/
  | returned (a : α)
  /-- The process was ended by `os.Exit(code)`. -/
  | exited (code : Nat)
  /-- The goroutine sits in `wg.Wait()` on a counter nobody decrements. -/
  | blocked
  deriving DecidableEq, Repr

/-- The effects of a run, in order, and its outcome. -/
structure Run (σ α : Type) where
  trace : List (Event σ)
  outcome : Outcome α
  deriving DecidableEq, Repr

/-- A piece of bootstrap code: reads the environment, performs effects. -/
def Prog (σ α : Type) := Env → Run σ α

/-- Return without effect. -/
def Prog.pure {σ α : Type} (a : α) : Prog σ α :=
  fun _ => ⟨[], .returned a⟩

/-- Sequencing: the second part runs only if the first one returned. -/
def Prog.bind {σ α β : Type} (p : Prog σ α) (f : α → Prog σ β) : Prog σ β :=
  fun env =>
    match p env with
    | ⟨t, .returned a⟩ => ⟨t ++ (f a env).trace, (f a env).outcome⟩
    | ⟨t, .exited c⟩ => ⟨t, .exited c⟩
    | ⟨t, .blocked⟩ => ⟨t, .blocked⟩

instance {σ : Type} : Monad (Prog σ) where
  pure := Prog.pure
  bind := Prog.bind

/-- Perform one effect and return `a`. -/
def emit {σ α : Type} (e : Event σ) (a : α) : Prog σ α :=
  fun _ => ⟨[e], .returned a⟩

/-- Go `os.Getenv(key)`. -/
def getenv {σ : Type} (key : String) : Prog σ String :=
  fun env => ⟨[.readEnv key], .returned (Getenv env key)⟩

/-- Go `logger.Fatal(msg)` of logrus: writes the entry, then calls
`logger.Exit(1)`, that is `os.Exit(1)`.  Nothing after it runs. -/
def loggerFatal {σ α : Type} (msg : String) : Prog σ α :=
  fun _ => ⟨[.fatal msg], .exited 1⟩

/-- Go `env.GetBoolDefault(key, dflt)` of go-env-default: the variable parsed by
`strconv.ParseBool`, `dflt` when it is unset or does not parse. -/
def GetBoolDefault {σ : Type} (key : String) (dflt : Bool) : Prog σ Bool :=
  fun env => ⟨[.readEnv key], .returned (boolDefault env key dflt)⟩

/-- Go `env.GetIntDefault(key, dflt)` of go-env-default: the variable parsed by
`strconv.Atoi`, `dflt` when it is unset or does not parse. -/
def GetIntDefault {σ : Type} (key : String) (dflt : Int) : Prog σ Int :=
  fun env => ⟨[.readEnv key], .returned (intDefault env key dflt)⟩

/-- The parts of package `main` that `main.go` calls and that are declared in
other files: the two tracker constructors and the `Ticker` field of `*Stock`.
The type `σ` stands for `*Stock`. -/
structure Deps (σ : Type) where
  NewStock : TrackerArgs → σ
  NewCrypto : TrackerArgs → σ
  Ticker : σ → String

/-- A call of `NewStock(ticker, token, name, nickname, color, flashChange, frequency)`. -/
def callNewStock {σ : Type} (d : Deps σ) (a : TrackerArgs) : Prog σ σ :=
  emit (.newStock a) (d.NewStock a)

/-- A call of `NewCrypto(ticker, token, name, nickname, color, flashChange, frequency)`. -/
def callNewCrypto {σ : Type} (d : Deps σ) (a : TrackerArgs) : Prog σ σ :=
  emit (.newCrypto a) (d.NewCrypto a)

/-! ## `main.go` -/

/-- Source `addInitialStock` (main.go, lines 42-69). -/
def addInitialStock {σ : Type} (d : Deps σ) : Prog σ σ := do
  let token ← getenv "DISCORD_BOT_TOKEN"
  if token = "" then
    loggerFatal "Discord bot token is not set! Shutting down."
  else
  let ticker ← getenv "TICKER"
  if ticker = "" then
    loggerFatal "Ticker is not set!"
  else
  let nickname ← GetBoolDefault "SET_NICKNAME" false
  let color ← GetBoolDefault "SET_COLOR" false
  let flashChange ← GetBoolDefault "FLASH_CHANGE" false
  let frequency ← GetIntDefault "FREQUENCY" 60
  let cryptoName ← getenv "CRYPTO_NAME"
  if cryptoName = "" then do
    let stockName ← getenv "STOCK_NAME"
    callNewStock d ⟨ticker, token, stockName, nickname, color, flashChange, frequency⟩
  else do
    let cryptoName2 ← getenv "CRYPTO_NAME"
    callNewCrypto d ⟨ticker, token, cryptoName2, nickname, color, flashChange, frequency⟩

/-- Source `main` (main.go, lines 27-40).  The final `wg.Wait()` waits on a counter
set to 1 by `wg.Add(1)`, and `main.go` holds no call of `wg.Done`: the main
goroutine stays there while the goroutines of the manager and of the
trackers run.  (What the Go runtime does when no other goroutine is left is
not part of this embedding.) -/
def main {σ : Type} (d : Deps σ) : Prog σ Unit := do
  emit (.wgAdd 1) ()
  emit .newManager ()
  let token ← getenv "DISCORD_BOT_TOKEN"
  if token ≠ "" then do
    let s ← addInitialStock d
    emit (.addStock (d.Ticker s) s) ()
  else
    Prog.pure ()
  fun _ => ⟨[.wgWait], .blocked⟩

/-- The arguments `addInitialStock` reads from the environment for the
constructor call, the display name apart: ticker, token, the three flags and
the frequency. -/
def settingsOf (env : Env) (name : String) : TrackerArgs :=
  ⟨Getenv env "TICKER", Getenv env "DISCORD_BOT_TOKEN", name,
   boolDefault env "SET_NICKNAME" false, boolDefault env "SET_COLOR" false,
   boolDefault env "FLASH_CHANGE" false, intDefault env "FREQUENCY" 60⟩

/-- Is the event a read of the environment? -/
def Event.isRead {σ : Type} : Event σ → Bool
  | .readEnv _ => true
  | _ => false

/-- Number of events of a trace that satisfy `p`. -/
def countEvents {σ : Type} (p : Event σ → Bool) (t : List (Event σ)) : Nat :=
  (t.filter p).length

/-- A concrete instance of `Deps`: a tracker is the record of its constructor
arguments, tagged with the kind (`true` for a crypto tracker). -/
def sampleDeps : Deps (Bool × TrackerArgs) where
  NewStock := fun a => (false, a)
  NewCrypto := fun a => (true, a)
  Ticker := fun s => s.2.ticker

/-! ## `encoding/json`: the scanner -/

/-- A parsed JSON text.  A number keeps its literal, as `encoding/json` hands
the literal to `strconv`; a string holds the unquoted text. -/
inductive JValue where
  | null
  | bool (b : Bool)
  | num (lit : String)
  | str (s : String)
  | arr (items : List JValue)
  | obj (members : List (String × JValue))

/-- JSON white space: space, tab, carriage return, line feed. -/
def isSpace (c : Char) : Bool :=
  c.toNat = 32 || c.toNat = 9 || c.toNat = 13 || c.toNat = 10

/-- Drop leading white space. -/
def skipWs : List Char → List Char
  | [] => []
  | c :: cs => if isSpace c then skipWs cs else c :: cs

/-- ASCII decimal digit. -/
def isDigit (c : Char) : Bool :=
  decide (48 ≤ c.toNat) && decide (c.toNat ≤ 57)

/-- The longest run of digits at the head, and what follows it. -/
def takeDigits : List Char → List Char × List Char
  | [] => ([], [])
  | c :: cs =>
    if isDigit c then ((takeDigits cs).1.cons c, (takeDigits cs).2) else ([], c :: cs)

/-- The integer part of a number: `0`, or a non-zero digit and more digits. -/
def scanIntPart : List Char → Option (List Char × List Char)
  | [] => none
  | c :: cs =>
    if c.toNat = 48 then some ([c], cs)
    else if isDigit c then some (c :: (takeDigits cs).1, (takeDigits cs).2)
    else none

/-- The optional fraction of a number: `.` and at least one digit. -/
def scanFrac : List Char → Option (List Char × List Char)
  | [] => some ([], [])
  | c :: cs =>
    if c.toNat = 46 then
      match takeDigits cs with
      | ([], _) => none
      | (ds, rest) => some (c :: ds, rest)
    else some ([], c :: cs)

/-- The digits of an exponent, after the optional sign. -/
def scanExpDigits (pre : List Char) (cs : List Char) : Option (List Char × List Char) :=
  match takeDigits cs with
  | ([], _) => none
  | (ds, rest) => some (pre ++ ds, rest)

/-- The optional exponent of a number: `e` or `E`, an optional sign, and at
least one digit. -/
def scanExp : List Char → Option (List Char × List Char)
  | [] => some ([], [])
  | c :: cs =>
    if c.toNat = 101 ∨ c.toNat = 69 then
      match cs with
      | [] => none
      | s :: cs2 =>
        if s.toNat = 43 ∨ s.toNat = 45 then scanExpDigits [c, s] cs2
        else scanExpDigits [c] (s :: cs2)
    else some ([], c :: cs)

/-- A number literal at the head of the input: an optional `-`, the integer
part, an optional fraction, an optional exponent. -/
def scanNumber (cs : List Char) : Option (List Char × List Char) :=
  let sign : List Char := match cs with
    | [] => []
    | c :: _ => if c.toNat = 45 then [c] else []
  let afterSign : List Char := match cs with
    | [] => []
    | c :: rest => if c.toNat = 45 then rest else c :: rest
  match scanIntPart afterSign with
  | none => none
  | some (ip, r1) =>
    match scanFrac r1 with
    | none => none
    | some (fp, r2) =>
      match scanExp r2 with
      | none => none
      | some (ep, r3) => some (sign ++ ip ++ fp ++ ep, r3)

/-- Value of a hexadecimal digit. -/
def hexVal (c : Char) : Option Nat :=
  if 48 ≤ c.toNat ∧ c.toNat ≤ 57 then some (c.toNat - 48)
  else if 97 ≤ c.toNat ∧ c.toNat ≤ 102 then some (c.toNat - 87)
  else if 65 ≤ c.toNat ∧ c.toNat ≤ 70 then some (c.toNat - 55)
  else none

/-- Four hexadecimal digits at the head of the input (`getu4` after `\u`). -/
def hex4 : List Char → Option (Nat × List Char)
  | a :: b :: c :: d :: rest =>
    match hexVal a, hexVal b, hexVal c, hexVal d with
    | some w, some x, some y, some z => some (((w * 16 + x) * 16 + y) * 16 + z, rest)
    | _, _, _, _ => none
  | _ => none

/-- The character a one-letter escape stands for: one of
`\"`, `\\`, `\/`, `\b`, `\f`, `\n`, `\r`, `\t`. -/
def simpleEscape (c : Char) : Option Char :=
  if c.toNat = 34 then some (Char.ofNat 34)
  else if c.toNat = 92 then some (Char.ofNat 92)
  else if c.toNat = 47 then some (Char.ofNat 47)
  else if c.toNat = 98 then some (Char.ofNat 8)
  else if c.toNat = 102 then some (Char.ofNat 12)
  else if c.toNat = 110 then some (Char.ofNat 10)
  else if c.toNat = 114 then some (Char.ofNat 13)
  else if c.toNat = 116 then some (Char.ofNat 9)
  else none

/-- Go `utf16.IsSurrogate`. -/
def isSurrogate (r : Nat) : Bool :=
  decide (0xD800 ≤ r) && decide (r < 0xE000)

/-- Go `utf16.DecodeRune`: the code point of a surrogate pair, U+FFFD when the
two halves are not a high and a low surrogate. -/
def decodeSurrogates (r1 r2 : Nat) : Nat :=
  if 0xD800 ≤ r1 ∧ r1 < 0xDC00 ∧ 0xDC00 ≤ r2 ∧ r2 < 0xE000 then
    (r1 - 0xD800) * 1024 + (r2 - 0xDC00) + 0x10000
  else 0xFFFD

/-- The second half of a surrogate pair, when the input goes on with a
`\u` escape. -/
def nextU4 : List Char → Option (Nat × List Char)
  | a :: b :: rest => if a.toNat = 92 ∧ b.toNat = 117 then hex4 rest else none
  | _ => none

/-- The body of a string literal, after the opening quote: the unquoted text
and the input after the closing quote.  Control characters below U+0020 and
unknown escapes are errors; a `\u` escape that is half of an invalid
surrogate pair becomes U+FFFD (as `unquote` does). -/
def scanString : Nat → List Char → List Char → Option (String × List Char)
  | 0, _, _ => none
  | fuel + 1, acc, cs =>
    match cs with
    | [] => none
    | c :: rest =>
      if c.toNat = 34 then some (String.mk acc.reverse, rest)
      else if c.toNat = 92 then
        match rest with
        | [] => none
        | e :: rest2 =>
          if e.toNat = 117 then
            match hex4 rest2 with
            | none => none
            | some (rr, rest3) =>
              if isSurrogate rr then
                match nextU4 rest3 with
                | some (rr1, rest5) =>
                  if decodeSurrogates rr rr1 = 0xFFFD then
                    scanString fuel (Char.ofNat 0xFFFD :: acc) rest3
                  else scanString fuel (Char.ofNat (decodeSurrogates rr rr1) :: acc) rest5
                | none => scanString fuel (Char.ofNat 0xFFFD :: acc) rest3
              else scanString fuel (Char.ofNat rr :: acc) rest3
          else
            match simpleEscape e with
            | some ch => scanString fuel (ch :: acc) rest2
            | none => none
      else if c.toNat < 32 then none
      else scanString fuel (c :: acc) rest

/-- A string literal whose opening quote has been read. -/
def scanStringLit (cs : List Char) : Option (String × List Char) :=
  scanString (cs.length + 1) [] cs

/-- Does the input start with the given characters?  Returns the rest. -/
def dropLit : List Char → List Char → Option (List Char)
  | [], cs => some cs
  | _ :: _, [] => none
  | p :: ps, c :: cs => if p = c then dropLit ps cs else none

/-- The constant `maxNestingDepth` of the scanner: arrays and objects nest at most this
deep. -/
def maxNestingDepth : Nat := 10000

mutual

/-- One JSON value at the head of the input (leading white space skipped),
inside `depth` enclosing arrays and objects. -/
def parseValue : Nat → Nat → List Char → Option (JValue × List Char)
  | 0, _, _ => none
  | fuel + 1, depth, cs =>
    match skipWs cs with
    | [] => none
    | c :: rest =>
      if c.toNat = 123 then
        if depth + 1 > maxNestingDepth then none
        else
          match skipWs rest with
          | [] => none
          | c2 :: rest2 =>
            if c2.toNat = 125 then some (.obj [], rest2)
            else
              match parseMembers fuel (depth + 1) (c2 :: rest2) with
              | some (ms, r) => some (.obj ms, r)
              | none => none
      else if c.toNat = 91 then
        if depth + 1 > maxNestingDepth then none
        else
          match skipWs rest with
          | [] => none
          | c2 :: rest2 =>
            if c2.toNat = 93 then some (.arr [], rest2)
            else
              match parseItems fuel (depth + 1) (c2 :: rest2) with
              | some (xs, r) => some (.arr xs, r)
              | none => none
      else if c.toNat = 34 then
        match scanStringLit rest with
        | some (s, r) => some (.str s, r)
        | none => none
      else if c.toNat = 116 then
        match dropLit "rue".toList rest with
        | some r => some (.bool true, r)
        | none => none
      else if c.toNat = 102 then
        match dropLit "alse".toList rest with
        | some r => some (.bool false, r)
        | none => none
      else if c.toNat = 110 then
        match dropLit "ull".toList rest with
        | some r => some (.null, r)
        | none => none
      else
        match scanNumber (c :: rest) with
        | some (lit, r) => some (.num (String.mk lit), r)
        | none => none

/-- The members of a non-empty object, from the first key up to and including
the closing brace. -/
def parseMembers : Nat → Nat → List Char → Option (List (String × JValue) × List Char)
  | 0, _, _ => none
  | fuel + 1, depth, cs =>
    match skipWs cs with
    | [] => none
    | q :: rest =>
      if q.toNat = 34 then
        match scanStringLit rest with
        | none => none
        | some (key, r1) =>
          match skipWs r1 with
          | [] => none
          | colon :: r2 =>
            if colon.toNat = 58 then
              match parseValue fuel depth r2 with
              | none => none
              | some (v, r3) =>
                match skipWs r3 with
                | [] => none
                | sep :: r4 =>
                  if sep.toNat = 125 then some ([(key, v)], r4)
                  else if sep.toNat = 44 then
                    match parseMembers fuel depth r4 with
                    | some (ms, r5) => some ((key, v) :: ms, r5)
                    | none => none
                  else none
            else none
      else none

/-- The items of a non-empty array, from the first item up to and including
the closing bracket. -/
def parseItems : Nat → Nat → List Char → Option (List JValue × List Char)
  | 0, _, _ => none
  | fuel + 1, depth, cs =>
    match parseValue fuel depth cs with
    | none => none
    | some (v, r1) =>
      match skipWs r1 with
      | [] => none
      | sep :: r2 =>
        if sep.toNat = 93 then some ([v], r2)
        else if sep.toNat = 44 then
          match parseItems fuel depth r2 with
          | some (xs, r3) => some (v :: xs, r3)
          | none => none
        else none

end

/-- The JSON value a text denotes, `none` when the text is not exactly one
JSON value surrounded by white space (`checkValid` reports a
`*json.SyntaxError`). -/
def parseJSON (body : String) : Option JValue :=
  match parseValue (2 * body.length + 2) 0 body.toList with
  | some (v, rest) =>
    match skipWs rest with
    | [] => some v
    | _ :: _ => none
  | none => none

/-! ## `net/url`

`url.Parse` and the rendering of a `*url.URL`, on the bytes of the text. -/

/-- A Go string as `net/url` sees it: a sequence of bytes. -/
abbrev Bytes := List Nat

/-- The UTF-8 encoding of one character. -/
def utf8Char (c : Char) : Bytes :=
  if c.toNat < 0x80 then [c.toNat]
  else if c.toNat < 0x800 then [0xC0 + c.toNat / 64, 0x80 + c.toNat % 64]
  else if c.toNat < 0x10000 then
    [0xE0 + c.toNat / 4096, 0x80 + c.toNat / 64 % 64, 0x80 + c.toNat % 64]
  else
    [0xF0 + c.toNat / 262144, 0x80 + c.toNat / 4096 % 64, 0x80 + c.toNat / 64 % 64,
     0x80 + c.toNat % 64]

/-- The bytes of a list of characters. -/
def utf8Chars : List Char → Bytes
  | [] => []
  | c :: cs => utf8Char c ++ utf8Chars cs

/-- The bytes of a text. -/
def utf8 (s : String) : Bytes := utf8Chars s.toList

/-- The part of a URL a string is escaped for (`encoding` in `net/url`). -/
inductive Encoding where
  | path
  | pathSegment
  | host
  | zone
  | userPassword
  | queryComponent
  | fragment
  deriving DecidableEq, Repr

/-- ASCII letter or digit. -/
def isAlnum (c : Nat) : Bool :=
  (decide (97 ≤ c) && decide (c ≤ 122)) || (decide (65 ≤ c) && decide (c ≤ 90)) ||
  (decide (48 ≤ c) && decide (c ≤ 57))

/-- Go `shouldEscape(c, mode)`: must the byte be percent-encoded in that
part of a URL? -/
def shouldEscape (c : Nat) (mode : Encoding) : Bool :=
  if isAlnum c then false
  else if (mode = .host ∨ mode = .zone) ∧
      [33, 36, 38, 39, 40, 41, 42, 43, 44, 59, 61, 58, 91, 93, 60, 62, 34].contains c then false
  else if [45, 95, 46, 126].contains c then false
  else if [36, 38, 43, 44, 47, 58, 59, 61, 63, 64].contains c ∧ mode = .path then
    decide (c = 63)
  else if [36, 38, 43, 44, 47, 58, 59, 61, 63, 64].contains c ∧ mode = .pathSegment then
    decide (c = 47) || decide (c = 59) || decide (c = 44) || decide (c = 63)
  else if [36, 38, 43, 44, 47, 58, 59, 61, 63, 64].contains c ∧ mode = .userPassword then
    decide (c = 64) || decide (c = 47) || decide (c = 63) || decide (c = 58)
  else if [36, 38, 43, 44, 47, 58, 59, 61, 63, 64].contains c ∧ mode = .queryComponent then
    true
  else if [36, 38, 43, 44, 47, 58, 59, 61, 63, 64].contains c ∧ mode = .fragment then
    false
  else if mode = .fragment ∧ [33, 40, 41, 42].contains c then false
  else true

/-- Go `ishex`. -/
def ishex (c : Nat) : Bool :=
  (decide (48 ≤ c) && decide (c ≤ 57)) || (decide (97 ≤ c) && decide (c ≤ 102)) ||
  (decide (65 ≤ c) && decide (c ≤ 70))

/-- Go `unhex`. -/
def unhex (c : Nat) : Nat :=
  if 48 ≤ c ∧ c ≤ 57 then c - 48
  else if 97 ≤ c ∧ c ≤ 102 then c - 97 + 10
  else if 65 ≤ c ∧ c ≤ 70 then c - 65 + 10
  else 0

/-- The errors of `url.Parse`, before they are wrapped in a `*url.Error`. -/
inductive ParseErr where
  /-- The text `net/url: invalid control character in URL`. -/
  | controlCharacter
  /-- The text `missing protocol scheme`. -/
  | missingScheme
  /-- The text `first path segment in URL cannot contain colon`. -/
  | colonInFirstSegment
  /-- An `EscapeError`: the text `invalid URL escape` and the bytes. -/
  | escape (s : Bytes)
  /-- An `InvalidHostError`: the text `invalid character ... in host name`. -/
  | invalidHost (s : Bytes)
  /-- The text `invalid port ... after host`. -/
  | invalidPort (s : Bytes)
  /-- The text `missing ']' in host`. -/
  | missingBracket
  /-- The text `net/url: invalid userinfo`. -/
  | invalidUserinfo
  deriving DecidableEq, Repr

/-- Go `unescape(s, mode)`: percent-decoding with the checks of the mode.  The
first offence from the left is the error. -/
def unescape (mode : Encoding) : Bytes → Except ParseErr Bytes
  | [] => .ok []
  | c :: rest =>
    if c = 37 then
      match rest with
      | h1 :: h2 :: rest2 =>
        if ishex h1 && ishex h2 then
          if mode = .host ∧ unhex h1 < 8 ∧ ¬ (h1 = 50 ∧ h2 = 53) then
            .error (.escape [c, h1, h2])
          else if mode = .zone ∧ ¬ (h1 = 50 ∧ h2 = 53) ∧ unhex h1 * 16 + unhex h2 ≠ 32 ∧
              shouldEscape (unhex h1 * 16 + unhex h2) .host = true then
            .error (.escape [c, h1, h2])
          else
            match unescape mode rest2 with
            | .ok t => .ok ((unhex h1 * 16 + unhex h2) :: t)
            | .error e => .error e
        else .error (.escape [c, h1, h2])
      | short => .error (.escape (c :: short))
    else if (mode = .host ∨ mode = .zone) ∧ c < 128 ∧ shouldEscape c .host = true then
      .error (.invalidHost [c])
    else
      match unescape mode rest with
      | .ok t => .ok ((if c = 43 ∧ mode = .queryComponent then 32 else c) :: t)
      | .error e => .error e

/-- Upper-case hexadecimal digit. -/
def upperhex (n : Nat) : Nat := if n < 10 then 48 + n else 55 + n

/-- Go `escape(s, mode)`. -/
def escape (mode : Encoding) : Bytes → Bytes
  | [] => []
  | c :: rest =>
    if shouldEscape c mode then
      if c = 32 ∧ mode = .queryComponent then 43 :: escape mode rest
      else 37 :: upperhex (c / 16) :: upperhex (c % 16) :: escape mode rest
    else c :: escape mode rest

/-- Go `validEncoded(s, mode)`. -/
def validEncoded (mode : Encoding) (s : Bytes) : Bool :=
  s.all (fun c =>
    [33, 36, 38, 39, 40, 41, 42, 43, 44, 59, 61, 58, 64, 91, 93, 37].contains c ||
    !shouldEscape c mode)

/-- Go `stringContainsCTLByte`. -/
def containsCTL (s : Bytes) : Bool :=
  s.any (fun b => decide (b < 32) || decide (b = 127))

/-- Go `strings.Cut(s, sep)` for a one-byte separator: the text before the
first separator and the text after it, `none` when there is no separator. -/
def cutByte (sep : Nat) : Bytes → Option (Bytes × Bytes)
  | [] => none
  | c :: rest =>
    if c = sep then some ([], rest)
    else
      match cutByte sep rest with
      | some (a, b) => some (c :: a, b)
      | none => none

/-- Number of occurrences of a byte. -/
def countByte (sep : Nat) (s : Bytes) : Nat := (s.filter (fun c => decide (c = sep))).length

/-- Go `strings.LastIndex(s, sep)` for a one-byte separator, as the text
before the last separator and the text from it on. -/
def cutLastByte (sep : Nat) : Bytes → Option (Bytes × Bytes)
  | [] => none
  | c :: rest =>
    match cutLastByte sep rest with
    | some (a, b) => some (c :: a, b)
    | none => if c = sep then some ([], c :: rest) else none

/-- Does the text up to the first slash hold a colon? -/
def firstSegmentHasColon (s : Bytes) : Bool :=
  match cutByte 47 s with
  | some (seg, _) => seg.contains 58
  | none => s.contains 58

/-- Does the text percent-decode, in the given mode, to `want`? -/
def unescapesTo (mode : Encoding) (s want : Bytes) : Bool :=
  match unescape mode s with
  | .ok t => decide (t = want)
  | .error _ => false

/-- The scan of `getScheme`, `i` bytes into `raw`. -/
def getSchemeLoop (raw : Bytes) : Nat → Bytes → Except ParseErr (Bytes × Bytes)
  | _, [] => .ok ([], raw)
  | i, c :: cs =>
    if (97 ≤ c ∧ c ≤ 122) ∨ (65 ≤ c ∧ c ≤ 90) then getSchemeLoop raw (i + 1) cs
    else if (48 ≤ c ∧ c ≤ 57) ∨ c = 43 ∨ c = 45 ∨ c = 46 then
      if i = 0 then .ok ([], raw) else getSchemeLoop raw (i + 1) cs
    else if c = 58 then
      if i = 0 then .error .missingScheme else .ok (raw.take i, cs)
    else .ok ([], raw)

/-- Go `getScheme(rawURL)`: the scheme and what follows the colon. -/
def getScheme (raw : Bytes) : Except ParseErr (Bytes × Bytes) := getSchemeLoop raw 0 raw

/-- ASCII lower case (`strings.ToLower` on a scheme, which is ASCII). -/
def toLowerASCII (s : Bytes) : Bytes :=
  s.map (fun c => if 65 ≤ c ∧ c ≤ 90 then c + 32 else c)

/-- Go `validOptionalPort`. -/
def validOptionalPort (port : Bytes) : Bool :=
  match port with
  | [] => true
  | c :: digits => decide (c = 58) && digits.all (fun b => decide (48 ≤ b) && decide (b ≤ 57))

/-- The text before the first `%25` and the text from it on. -/
def cutZone : Bytes → Option (Bytes × Bytes)
  | [] => none
  | c :: rest =>
    if c = 37 ∧ rest.take 2 = [50, 53] then some ([], c :: rest)
    else
      match cutZone rest with
      | some (a, b) => some (c :: a, b)
      | none => none

/-- Go `parseHost`. -/
def parseHost (host : Bytes) : Except ParseErr Bytes :=
  match host with
  | 91 :: _ =>
    match cutLastByte 93 host with
    | none => .error .missingBracket
    | some (before, fromBracket) =>
      if ¬ validOptionalPort (fromBracket.drop 1) then .error (.invalidPort (fromBracket.drop 1))
      else
        match cutZone before with
        | some (h1, zoneOn) =>
          match unescape .host h1, unescape .zone zoneOn, unescape .host fromBracket with
          | .ok a, .ok b, .ok c => .ok (a ++ b ++ c)
          | .error e, _, _ => .error e
          | .ok _, .error e, _ => .error e
          | .ok _, .ok _, .error e => .error e
        | none => unescape .host host
  | _ =>
    match cutLastByte 58 host with
    | some (_, colonPort) =>
      if ¬ validOptionalPort colonPort then .error (.invalidPort colonPort)
      else unescape .host host
    | none => unescape .host host

/-- Go `validUserinfo`. -/
def validUserinfo (s : Bytes) : Bool :=
  s.all (fun c => isAlnum c ||
    [45, 46, 95, 58, 126, 33, 36, 38, 39, 40, 41, 42, 43, 44, 59, 61, 37, 64].contains c)

/-- Go `url.Userinfo`. -/
structure Userinfo where
  username : Bytes
  password : Bytes
  passwordSet : Bool
  deriving DecidableEq, Repr

/-- Go `parseAuthority`. -/
def parseAuthority (authority : Bytes) : Except ParseErr (Option Userinfo × Bytes) :=
  match cutLastByte 64 authority with
  | none =>
    match parseHost authority with
    | .ok h => .ok (none, h)
    | .error e => .error e
  | some (userinfo, atHost) =>
    match parseHost (atHost.drop 1) with
    | .error e => .error e
    | .ok h =>
      if ¬ validUserinfo userinfo then .error .invalidUserinfo
      else
        match cutByte 58 userinfo with
        | none =>
          match unescape .userPassword userinfo with
          | .ok u => .ok (some ⟨u, [], false⟩, h)
          | .error e => .error e
        | some (name, pw) =>
          match unescape .userPassword name, unescape .userPassword pw with
          | .ok u, .ok p => .ok (some ⟨u, p, true⟩, h)
          | .error e, _ => .error e
          | .ok _, .error e => .error e

/-- Go `url.URL`. -/
structure URL where
  Scheme : Bytes := []
  Opaque : Bytes := []
  User : Option Userinfo := none
  Host : Bytes := []
  Path : Bytes := []
  RawPath : Bytes := []
  OmitHost : Bool := false
  ForceQuery : Bool := false
  RawQuery : Bytes := []
  Fragment : Bytes := []
  RawFragment : Bytes := []
  deriving DecidableEq, Repr

/-- Go `(*URL).setPath`. -/
def URL.setPath (u : URL) (p : Bytes) : Except ParseErr URL :=
  match unescape .path p with
  | .error e => .error e
  | .ok path =>
    .ok { u with Path := path, RawPath := if escape .path path = p then [] else p }

/-- Go `(*URL).setFragment`. -/
def URL.setFragment (u : URL) (f : Bytes) : Except ParseErr URL :=
  match unescape .fragment f with
  | .error e => .error e
  | .ok frag =>
    .ok { u with Fragment := frag, RawFragment := if escape .fragment frag = f then [] else f }

/-- Go `parse(rawURL, false)`: a URL without its fragment. -/
def parseNoFragment (raw : Bytes) : Except ParseErr URL :=
  if containsCTL raw then .error .controlCharacter
  else if raw = [42] then .ok { Path := [42] }
  else
    match getScheme raw with
    | .error e => .error e
    | .ok (scheme0, rest0) =>
      let scheme := toLowerASCII scheme0
      let forced : Bool := decide (rest0.getLast? = some 63) && decide (countByte 63 rest0 = 1)
      let rest1 : Bytes :=
        if forced then rest0.dropLast
        else match cutByte 63 rest0 with
          | some (a, _) => a
          | none => rest0
      let query : Bytes :=
        if forced then []
        else match cutByte 63 rest0 with
          | some (_, b) => b
          | none => []
      let u : URL := { Scheme := scheme, ForceQuery := forced, RawQuery := query }
      if rest1.head? ≠ some 47 ∧ scheme ≠ [] then .ok { u with Opaque := rest1 }
      else if rest1.head? ≠ some 47 ∧ firstSegmentHasColon rest1 = true then
        .error .colonInFirstSegment
      else if (scheme ≠ [] ∨ rest1.take 3 ≠ [47, 47, 47]) ∧ rest1.take 2 = [47, 47] then
        let afterSlashes := rest1.drop 2
        let authority : Bytes := match cutByte 47 afterSlashes with
          | some (a, _) => a
          | none => afterSlashes
        let rest2 : Bytes := match cutByte 47 afterSlashes with
          | some (_, b) => 47 :: b
          | none => []
        match parseAuthority authority with
        | .error e => .error e
        | .ok (user, host) => URL.setPath { u with User := user, Host := host } rest2
      else if scheme ≠ [] ∧ rest1.head? = some 47 then
        URL.setPath { u with OmitHost := true } rest1
      else URL.setPath u rest1

/-- Go `*url.Error`: the operation, the URL text and the cause. -/
structure UrlError where
  Op : String
  URL : Bytes
  Err : ParseErr
  deriving DecidableEq, Repr

/-- Go `url.Parse`. -/
def urlParse (raw : Bytes) : Except UrlError URL :=
  let beforeFrag : Bytes := match cutByte 35 raw with
    | some (a, _) => a
    | none => raw
  let frag : Bytes := match cutByte 35 raw with
    | some (_, b) => b
    | none => []
  match parseNoFragment beforeFrag with
  | .error e => .error ⟨"parse", beforeFrag, e⟩
  | .ok u =>
    if frag = [] then .ok u
    else
      match u.setFragment frag with
      | .error e => .error ⟨"parse", raw, e⟩
      | .ok u2 => .ok u2

/-- Go `(*URL).EscapedPath`. -/
def URL.EscapedPath (u : URL) : Bytes :=
  if u.RawPath ≠ [] ∧ validEncoded .path u.RawPath = true ∧
      unescapesTo .path u.RawPath u.Path = true then u.RawPath
  else if u.Path = [42] then [42]
  else escape .path u.Path

/-- Go `(*URL).EscapedFragment`. -/
def URL.EscapedFragment (u : URL) : Bytes :=
  if u.RawFragment ≠ [] ∧ validEncoded .fragment u.RawFragment = true ∧
      unescapesTo .fragment u.RawFragment u.Fragment = true then u.RawFragment
  else escape .fragment u.Fragment

/-- Go `(*Userinfo).String`. -/
def Userinfo.render (ui : Userinfo) : Bytes :=
  escape .userPassword ui.username ++
    (if ui.passwordSet then 58 :: escape .userPassword ui.password else [])

/-- The scheme, authority and path of `(*URL).String`. -/
def URL.renderHier (u : URL) : Bytes :=
  let scheme : Bytes := if u.Scheme ≠ [] then u.Scheme ++ [58] else []
  if u.Opaque ≠ [] then scheme ++ u.Opaque
  else
    let auth : Bytes :=
      if (u.Scheme ≠ [] ∨ u.Host ≠ [] ∨ u.User.isSome) ∧
          ¬ (u.OmitHost = true ∧ u.Host = [] ∧ u.User.isNone) then
        (if u.Host ≠ [] ∨ u.Path ≠ [] ∨ u.User.isSome then [47, 47] else []) ++
        (match u.User with
          | some ui => ui.render ++ [64]
          | none => []) ++
        (if u.Host ≠ [] then escape .host u.Host else [])
      else []
    let path := u.EscapedPath
    let slash : Bytes := if path ≠ [] ∧ path.head? ≠ some 47 ∧ u.Host ≠ [] then [47] else []
    let dot : Bytes :=
      if scheme ++ auth ++ slash = [] ∧ firstSegmentHasColon path = true then [46, 47]
      else []
    scheme ++ auth ++ slash ++ dot ++ path

/-- Go `(*URL).String`. -/
def URL.render (u : URL) : Bytes :=
  u.renderHier ++
    (if u.ForceQuery = true ∨ u.RawQuery ≠ [] then 63 :: u.RawQuery else []) ++
    (if u.Fragment ≠ [] then 35 :: u.EscapedFragment else [])

/-- Go `(*URL).RequestURI`: what goes on the request line. -/
def URL.RequestURI (u : URL) : Bytes :=
  let result : Bytes :=
    if u.Opaque = [] then (if u.EscapedPath = [] then [47] else u.EscapedPath)
    else if u.Opaque.take 2 = [47, 47] then u.Scheme ++ [58] ++ u.Opaque
    else u.Opaque
  result ++ (if u.ForceQuery = true ∨ u.RawQuery ≠ [] then 63 :: u.RawQuery else [])

/-! ## `encoding/json`: decoding into the structs of `coin_gecko.go` -/

/-- The errors `GetCryptoPrice` can return. -/
inductive Error where
  /-- The error of `http.NewRequest` for a method that is not a token. -/
  | invalidMethod (method : String)
  /-- The error of `http.NewRequest` for a URL text that `url.Parse` rejects:
  the `*url.Error` of `url.Parse`. -/
  | url (e : UrlError)
  /-- The error of `client.Do`. -/
  | transport (msg : String)
  /-- The error of `ioutil.ReadAll`. -/
  | read (msg : String)
  /-- A `*json.SyntaxError`: the body is not a JSON text. -/
  | invalidJSON
  /-- A `*json.UnmarshalTypeError`: the JSON value described by `value` does
  not fit the Go type `goType`. -/
  | unmarshalType (value : String) (goType : String)
  deriving DecidableEq, Repr

/-- Source `CurrentPrice` (coin_gecko.go, lines 14-16). -/
structure CurrentPrice where
  USD : Int
  deriving DecidableEq, Repr

/-- Source `MarketData` (coin_gecko.go, lines 18-21). -/
structure MarketData where
  CurrentPrice : CurrentPrice
  PriceChange : Int
  deriving DecidableEq, Repr

/-- Source `GeckoPriceResults` (coin_gecko.go, lines 24-29). -/
structure GeckoPriceResults where
  ID : String
  Symbol : String
  Name : String
  MarketData : MarketData
  deriving DecidableEq, Repr

/-- The zero value of `GeckoPriceResults` (`var price GeckoPriceResults`). -/
def GeckoPriceResults.zero : GeckoPriceResults :=
  ⟨"", "", "", ⟨⟨0⟩, 0⟩⟩

/-- The decoder state kept next to the value being filled: the first type
error met so far (`d.savedError`). -/
abbrev Saved := Option Error

/-- Go `d.saveError`: only the first error is kept. -/
def saveError (saved : Saved) (e : Error) : Saved :=
  match saved with
  | none => some e
  | some e0 => some e0

/-- Case folding of one character of an object key, as the decoder matches
keys to field names: ASCII letters without regard to case, and the two
letters that fold to ASCII in Unicode, U+017F to `s` and U+212A to `k`. -/
def foldChar (c : Char) : Char :=
  if 65 ≤ c.toNat ∧ c.toNat ≤ 90 then Char.ofNat (c.toNat + 32)
  else if c.toNat = 0x17F then Char.ofNat 115
  else if c.toNat = 0x212A then Char.ofNat 107
  else c

/-- Does the object key `key` select the field with JSON name `name`?  The
decoder takes the exact name and, failing that, a name equal under case
folding.  (Stated for the names of the tags in `coin_gecko.go`, which are
lower-case ASCII.) -/
def keyMatches (name key : String) : Bool :=
  key.toList.map foldChar = name.toList

/-- Decoding a JSON value into a field of type `int`: a number literal goes
through `strconv.ParseInt(s, 10, 64)`, `null` leaves the field as it is, and
anything else, a literal that `ParseInt` rejects included, is a type error
that leaves the field as it is. -/
def storeInt (v : JValue) (cur : Int) (saved : Saved) : Int × Saved :=
  match v with
  | .null => (cur, saved)
  | .num lit =>
    match ParseInt lit with
    | some n => (n, saved)
    | none => (cur, saveError saved (.unmarshalType ("number " ++ lit) "int"))
  | .bool _ => (cur, saveError saved (.unmarshalType "bool" "int"))
  | .str _ => (cur, saveError saved (.unmarshalType "string" "int"))
  | .arr _ => (cur, saveError saved (.unmarshalType "array" "int"))
  | .obj _ => (cur, saveError saved (.unmarshalType "object" "int"))

/-- Decoding a JSON value into a field of type `string`. -/
def storeString (v : JValue) (cur : String) (saved : Saved) : String × Saved :=
  match v with
  | .null => (cur, saved)
  | .str s => (s, saved)
  | .num _ => (cur, saveError saved (.unmarshalType "number" "string"))
  | .bool _ => (cur, saveError saved (.unmarshalType "bool" "string"))
  | .arr _ => (cur, saveError saved (.unmarshalType "array" "string"))
  | .obj _ => (cur, saveError saved (.unmarshalType "object" "string"))

/-- Decoding a JSON value that is not an object into a struct of Go type
`goType`: `null` is accepted and changes nothing, the rest is a type error. -/
def structMismatch (v : JValue) (goType : String) (saved : Saved) : Saved :=
  match v with
  | .null => saved
  | .num _ => saveError saved (.unmarshalType "number" goType)
  | .bool _ => saveError saved (.unmarshalType "bool" goType)
  | .str _ => saveError saved (.unmarshalType "string" goType)
  | .arr _ => saveError saved (.unmarshalType "array" goType)
  | .obj _ => saved

/-- One member of an object decoded into a `CurrentPrice`. -/
def stepCurrentPrice (st : CurrentPrice × Saved) (kv : String × JValue) :
    CurrentPrice × Saved :=
  if keyMatches "usd" kv.1 then
    ({ st.1 with USD := (storeInt kv.2 st.1.USD st.2).1 }, (storeInt kv.2 st.1.USD st.2).2)
  else st

/-- Decoding a JSON value into a `CurrentPrice`: the members of an object are
taken in order, unknown keys are skipped. -/
def decodeCurrentPrice (v : JValue) (cur : CurrentPrice) (saved : Saved) :
    CurrentPrice × Saved :=
  match v with
  | .obj members => members.foldl stepCurrentPrice (cur, saved)
  | other => (cur, structMismatch other "utils.CurrentPrice" saved)

/-- One member of an object decoded into a `MarketData`. -/
def stepMarketData (st : MarketData × Saved) (kv : String × JValue) : MarketData × Saved :=
  if keyMatches "current_price" kv.1 then
    ({ st.1 with CurrentPrice := (decodeCurrentPrice kv.2 st.1.CurrentPrice st.2).1 },
     (decodeCurrentPrice kv.2 st.1.CurrentPrice st.2).2)
  else if keyMatches "price_change_24h" kv.1 then
    ({ st.1 with PriceChange := (storeInt kv.2 st.1.PriceChange st.2).1 },
     (storeInt kv.2 st.1.PriceChange st.2).2)
  else st

/-- Decoding a JSON value into a `MarketData`. -/
def decodeMarketData (v : JValue) (cur : MarketData) (saved : Saved) : MarketData × Saved :=
  match v with
  | .obj members => members.foldl stepMarketData (cur, saved)
  | other => (cur, structMismatch other "utils.MarketData" saved)

/-- One member of an object decoded into a `GeckoPriceResults`. -/
def stepGecko (st : GeckoPriceResults × Saved) (kv : String × JValue) :
    GeckoPriceResults × Saved :=
  if keyMatches "id" kv.1 then
    ({ st.1 with ID := (storeString kv.2 st.1.ID st.2).1 }, (storeString kv.2 st.1.ID st.2).2)
  else if keyMatches "symbol" kv.1 then
    ({ st.1 with Symbol := (storeString kv.2 st.1.Symbol st.2).1 },
     (storeString kv.2 st.1.Symbol st.2).2)
  else if keyMatches "name" kv.1 then
    ({ st.1 with Name := (storeString kv.2 st.1.Name st.2).1 },
     (storeString kv.2 st.1.Name st.2).2)
  else if keyMatches "market_data" kv.1 then
    ({ st.1 with MarketData := (decodeMarketData kv.2 st.1.MarketData st.2).1 },
     (decodeMarketData kv.2 st.1.MarketData st.2).2)
  else st

/-- Decoding a JSON value into a `GeckoPriceResults`. -/
def decodeGecko (v : JValue) (cur : GeckoPriceResults) (saved : Saved) :
    GeckoPriceResults × Saved :=
  match v with
  | .obj members => members.foldl stepGecko (cur, saved)
  | other => (cur, structMismatch other "utils.GeckoPriceResults" saved)

/-- Go `json.Unmarshal(body, &price)`: the value of `price` afterwards and the
error returned.  A body that is not a JSON text is rejected before anything
is stored; a type error does not stop the decoding, the first one is
returned at the end. -/
def Unmarshal (body : String) (price : GeckoPriceResults) : GeckoPriceResults × Option Error :=
  match parseJSON body with
  | none => (price, some .invalidJSON)
  | some v => decodeGecko v price none

/-! ## `net/http` -/

/-- An outgoing request: method, the parsed URL, the header (canonical key
and its values, in the order of the first `Add`), the body (`none` for a
`nil` body) and the `Host` field. -/
structure Request where
  Method : String
  URL : URL
  Header : List (String × List String)
  Body : Option String
  Host : Bytes
  deriving DecidableEq, Repr

/-- What `client.Do` hands back when the exchange succeeds: the status code
and what `ioutil.ReadAll(resp.Body)` will yield, the body or a read error.
The body is taken as text, that is, as valid UTF-8. -/
structure Response where
  StatusCode : Nat
  Body : Except String String

/-- What one call of `client.Do` does: the HTTP requests it issues, in order
(the zero-value `http.Client` follows redirects, so there may be more than
the one it was given), and what it returns, a response or the message of
its error. -/
structure Exchange where
  issued : List Request
  result : Except String Response

/-- The world outside the program: what `client.Do` does with a request. -/
structure Net where
  Do : Request → Exchange

/-- Token characters of RFC 7230, the characters of a method and of a header
field name: letters, digits and a set of punctuation marks. -/
def isTokenChar (c : Char) : Bool :=
  (decide (97 ≤ c.toNat) && decide (c.toNat ≤ 122)) ||
  (decide (65 ≤ c.toNat) && decide (c.toNat ≤ 90)) ||
  (decide (48 ≤ c.toNat) && decide (c.toNat ≤ 57)) ||
  [33, 35, 36, 37, 38, 39, 42, 43, 45, 46, 94, 95, 96, 124, 126].contains c.toNat

/-- The letter case loop of `textproto.CanonicalMIMEHeaderKey`: upper case
at the start and after a dash, lower case elsewhere. -/
def canonCase : Bool → List Char → List Char
  | _, [] => []
  | upper, c :: cs =>
    let c2 : Char :=
      if upper ∧ 97 ≤ c.toNat ∧ c.toNat ≤ 122 then Char.ofNat (c.toNat - 32)
      else if ¬ upper ∧ 65 ≤ c.toNat ∧ c.toNat ≤ 90 then Char.ofNat (c.toNat + 32)
      else c
    c2 :: canonCase (decide (c2.toNat = 45)) cs

/-- Go `textproto.CanonicalMIMEHeaderKey`: a key with a character that is not a
token character is returned unchanged. -/
def CanonicalMIMEHeaderKey (key : String) : String :=
  if key.toList.all isTokenChar then String.mk (canonCase true key.toList) else key

/-- Append `value` to the values of `key` in a header. -/
def headerAppend (key value : String) :
    List (String × List String) → List (String × List String)
  | [] => [(key, [value])]
  | (k, vs) :: rest =>
    if k = key then (k, vs ++ [value]) :: rest else (k, vs) :: headerAppend key value rest

/-- Go `req.Header.Add(key, value)`. -/
def Request.addHeader (req : Request) (key value : String) : Request :=
  { req with Header := headerAppend (CanonicalMIMEHeaderKey key) value req.Header }

/-- Go `strings.LastIndex(s, sep)` for a one-byte separator: the index of the
last separator, -1 when there is none. -/
def lastIndexByte (sep : Nat) (s : Bytes) : Int :=
  match cutLastByte sep s with
  | some (before, _) => (before.length : Int)
  | none => -1

/-- Go `hasPort` of `net/http`. -/
def hasPort (s : Bytes) : Bool := decide (lastIndexByte 58 s > lastIndexByte 93 s)

/-- Go `removeEmptyPort` of `net/http`: `host:` becomes `host`. -/
def removeEmptyPort (host : Bytes) : Bytes :=
  if hasPort host = true ∧ host.getLast? = some 58 then host.dropLast else host

/-- Go `http.NewRequest(method, url, body)`: fails on a method that is not a
token and on a URL text that `url.Parse` rejects; an empty method means GET.
The request holds the parsed URL, its host without an empty port. -/
def NewRequest (method url : String) (body : Option String) : Except Error Request :=
  let method := if method = "" then "GET" else method
  if ¬ method.toList.all isTokenChar then .error (.invalidMethod method)
  else
    match urlParse (utf8 url) with
    | .error e => .error (.url e)
    | .ok u =>
      .ok ⟨method, { u with Host := removeEmptyPort u.Host }, [], body, removeEmptyPort u.Host⟩

/-! ## `fmt` -/

/-- What `fmt.Sprintf` appends for string operands no verb has used. -/
def extraOperands : List String → List Char
  | [] => []
  | a :: more =>
    ("%!(EXTRA " ++ ", ".intercalate ((a :: more).map (fun x => "string=" ++ x)) ++ ")").toList

/-- The formatting loop of `fmt.Sprintf` for a format whose verbs are `%s`
and `%%` and a list of string operands: text is copied, `%s` is replaced by
the next operand, copied as it is (`%!s(MISSING)` when none is left), a
`%` that ends the format gives `%!(NOVERB)`, and operands left over are
reported at the end. -/
def sprintfLoop : List Char → List String → List Char
  | [], args => extraOperands args
  | [c], args => (if c.toNat = 37 then "%!(NOVERB)".toList else [c]) ++ extraOperands args
  | c :: d :: rest, args =>
    if c.toNat = 37 then
      if d.toNat = 115 then
        match args with
        | a :: more => a.toList ++ sprintfLoop rest more
        | [] => "%!s(MISSING)".toList ++ sprintfLoop rest []
      else if d.toNat = 37 then c :: sprintfLoop rest args
      else c :: sprintfLoop (d :: rest) args
    else c :: sprintfLoop (d :: rest) args

/-- Go `fmt.Sprintf(format, arg)` with one string operand. -/
def Sprintf (format : String) (arg : String) : String :=
  String.mk (sprintfLoop format.toList [arg])

/-! ## `utils/coin_gecko.go` -/

/-- Source `GeckoURL` (coin_gecko.go, line 11). -/
def GeckoURL : String := "https://api.coingecko.com/api/v3/coins/%s"

/-- What one call of `GetCryptoPrice` does: the two values it returns, the
requests it handed to `client.Do`, in order, and the HTTP requests those
calls of `client.Do` issued. -/
structure Fetch where
  price : GeckoPriceResults
  err : Option Error
  calls : List Request
  wire : List Request
  deriving DecidableEq, Repr

/-- Source `GetCryptoPrice` (coin_gecko.go, lines 32-56). -/
def GetCryptoPrice (net : Net) (ticker : String) : Fetch :=
  let price := GeckoPriceResults.zero
  let reqURL := Sprintf GeckoURL ticker
  match NewRequest "GET" reqURL none with
  | .error err => ⟨price, some err, [], []⟩
  | .ok req =>
    let req := req.addHeader "User-Agent" "Mozilla/5.0"
    let req := req.addHeader "accept" "application/json"
    match (net.Do req).result with
    | .error msg => ⟨price, some (.transport msg), [req], (net.Do req).issued⟩
    | .ok resp =>
      match resp.Body with
      | .error msg => ⟨price, some (.read msg), [req], (net.Do req).issued⟩
      | .ok results =>
        match Unmarshal results price with
        | (price, some err) => ⟨price, some err, [req], (net.Do req).issued⟩
        | (price, none) => ⟨price, none, [req], (net.Do req).issued⟩

/-! ## Vocabulary of the statements -/

/-- The first part of `GeckoURL`, up to the verb. -/
def geckoBase : String := "https://api.coingecko.com/api/v3/coins/"

/-- The URL `http.NewRequest` stores for a URL text: the result of
`url.Parse`, the host without an empty port. -/
def requestURL (url : String) : Except UrlError URL :=
  match urlParse (utf8 url) with
  | .error e => .error e
  | .ok u => .ok { u with Host := removeEmptyPort u.Host }

/-- The request section 6 of the specification describes, for the URL `u`: a
GET of `u` with the two headers and no body. -/
def geckoRequest (u : URL) : Request :=
  ⟨"GET", u, [("User-Agent", ["Mozilla/5.0"]), ("Accept", ["application/json"])], none, u.Host⟩

/-- The URL of a request for a URL text that parses (the empty URL
otherwise). -/
def sampleURL (url : String) : URL :=
  match requestURL url with
  | .ok u => u
  | .error _ => {}

/-- Bytes that may stand in a path segment as they are (RFC 3986 `pchar`
without percent-escapes): letters, digits and `- . _ ~ ! $ & ' ( ) * + , ; = : @`. -/
def isSegmentByte (b : Nat) : Bool :=
  isAlnum b || [45, 46, 95, 126, 33, 36, 38, 39, 40, 41, 42, 43, 44, 59, 61, 58, 64].contains b

/-- Is the text a path segment written without percent-escapes? -/
def isSegment (s : String) : Bool := (utf8 s).all isSegmentByte

/-- The last segment of a path: what follows its last slash. -/
def lastSegment (path : Bytes) : Bytes :=
  match cutLastByte 47 path with
  | some (_, fromSlash) => fromSlash.drop 1
  | none => path

/-- The JSON value of a body of the documented shape
`{id, symbol, name, market_data: {current_price: {usd}, price_change_24h}}`,
the two numbers given by their literals. -/
def geckoShape (id symbol name usd change : String) : JValue :=
  .obj [("id", .str id), ("symbol", .str symbol), ("name", .str name),
        ("market_data", .obj [("current_price", .obj [("usd", .num usd)]),
                              ("price_change_24h", .num change)])]

/-- Is the number literal written with a fraction or an exponent? -/
def hasFractionOrExp (lit : String) : Bool :=
  lit.toList.any (fun c => c.toNat = 46 || c.toNat = 101 || c.toNat = 69)

/-- Does no member of an object select a field of `GeckoPriceResults`? -/
def noGeckoKey (members : List (String × JValue)) : Bool :=
  members.all (fun kv => !(keyMatches "id" kv.1 || keyMatches "symbol" kv.1 ||
    keyMatches "name" kv.1 || keyMatches "market_data" kv.1))

/-- A world in which `client.Do` issues the request it is given, nothing
else, and returns a response with the given status code and body. -/
def cannedNet (status : Nat) (body : String) : Net where
  Do := fun req => ⟨[req], .ok ⟨status, .ok body⟩⟩

/-- A world in which `client.Do` issues the request it is given and then the
requests `hops` (those of the redirects the client follows), and returns a
response with the given status code and body. -/
def redirectingNet (hops : List Request) (status : Nat) (body : String) : Net where
  Do := fun req => ⟨req :: hops, .ok ⟨status, .ok body⟩⟩

/-- The second request of a call of `client.Do` whose first request, for
`bitcoin`, was answered `302` with `Location: /api/v3/coins/btc`: a GET of
the new URL with the headers of the first request and a `Referer`. -/
def redirectHop : Request :=
  ⟨"GET", sampleURL "https://api.coingecko.com/api/v3/coins/btc",
   [("User-Agent", ["Mozilla/5.0"]), ("Accept", ["application/json"]),
    ("Referer", ["https://api.coingecko.com/api/v3/coins/bitcoin"])], none, []⟩

/-- The sample body of the specification (section 8). -/
def sampleBody : String :=
  "\x7b\"id\":\"bitcoin\",\"symbol\":\"btc\",\"name\":\"Bitcoin\",\"market_data\":\x7b\"current_price\":\x7b\"usd\":65000\x7d,\"price_change_24h\":-1200\x7d\x7d"

/-- The sample body with sub-unit prices. -/
def fractionalBody : String :=
  "\x7b\"id\":\"bitcoin\",\"symbol\":\"btc\",\"name\":\"Bitcoin\",\"market_data\":\x7b\"current_price\":\x7b\"usd\":65000.75\x7d,\"price_change_24h\":-1200.5\x7d\x7d"

/-- The body of the price API's answer for a symbol it does not know (sent
with status 404). -/
def notFoundBody : String := "\x7b\"error\":\"coin not found\"\x7d"

/-- Characters that stand for themselves inside a JSON string literal: no
quote, no backslash, no control character. -/
def isPlainChar (c : Char) : Bool :=
  decide (32 ≤ c.toNat) && (c.toNat != 34) && (c.toNat != 92)

/-- Is the text made of characters that stand for themselves in a JSON
string literal? -/
def isPlain (s : String) : Bool := s.toList.all isPlainChar

/-- May the character follow a number literal: neither a digit nor the start
of a fraction or of an exponent? -/
def endsNumber (t : Char) : Bool :=
  !isDigit t && (t.toNat != 46) && (t.toNat != 101) && (t.toNat != 69)

/-- The compact JSON text of the documented shape, with the strings written
as they are and the two integers in decimal. -/
def renderBody (id symbol name : String) (p c : Int) : String :=
  "\x7b\"id\":\"" ++ id ++ "\",\"symbol\":\"" ++ symbol ++ "\",\"name\":\"" ++ name ++
  "\",\"market_data\":\x7b\"current_price\":\x7b\"usd\":" ++ decimal p ++
  "\x7d,\"price_change_24h\":" ++ decimal c ++ "\x7d\x7d"

/-! # Theorems -/

set_option maxRecDepth 100000


/-! ## Bootstrap: the runs of `addInitialStock` and `main` -/

theorem addInitialStock_no_token {σ : Type} (d : Deps σ) (env : Env)
    (h : Getenv env "DISCORD_BOT_TOKEN" = "") :
    addInitialStock d env =
      ⟨[.readEnv "DISCORD_BOT_TOKEN", .fatal "Discord bot token is not set! Shutting down."],
       .exited 1⟩ := by
  simp [addInitialStock, bind, Prog.bind, getenv, loggerFatal, h]

theorem addInitialStock_no_ticker {σ : Type} (d : Deps σ) (env : Env)
    (h1 : Getenv env "DISCORD_BOT_TOKEN" ≠ "") (h2 : Getenv env "TICKER" = "") :
    addInitialStock d env =
      ⟨[.readEnv "DISCORD_BOT_TOKEN", .readEnv "TICKER", .fatal "Ticker is not set!"],
       .exited 1⟩ := by
  simp [addInitialStock, bind, Prog.bind, getenv, loggerFatal, h1, h2]

theorem addInitialStock_stock {σ : Type} (d : Deps σ) (env : Env)
    (h1 : Getenv env "DISCORD_BOT_TOKEN" ≠ "") (h2 : Getenv env "TICKER" ≠ "")
    (h3 : Getenv env "CRYPTO_NAME" = "") :
    addInitialStock d env =
      ⟨[.readEnv "DISCORD_BOT_TOKEN", .readEnv "TICKER", .readEnv "SET_NICKNAME",
        .readEnv "SET_COLOR", .readEnv "FLASH_CHANGE", .readEnv "FREQUENCY",
        .readEnv "CRYPTO_NAME", .readEnv "STOCK_NAME",
        .newStock (settingsOf env (Getenv env "STOCK_NAME"))],
       .returned (d.NewStock (settingsOf env (Getenv env "STOCK_NAME")))⟩ := by
  simp [addInitialStock, bind, Prog.bind, getenv, loggerFatal, h1, h2, h3, GetBoolDefault,
    GetIntDefault, callNewStock, emit, settingsOf]

theorem addInitialStock_crypto {σ : Type} (d : Deps σ) (env : Env)
    (h1 : Getenv env "DISCORD_BOT_TOKEN" ≠ "") (h2 : Getenv env "TICKER" ≠ "")
    (h3 : Getenv env "CRYPTO_NAME" ≠ "") :
    addInitialStock d env =
      ⟨[.readEnv "DISCORD_BOT_TOKEN", .readEnv "TICKER", .readEnv "SET_NICKNAME",
        .readEnv "SET_COLOR", .readEnv "FLASH_CHANGE", .readEnv "FREQUENCY",
        .readEnv "CRYPTO_NAME", .readEnv "CRYPTO_NAME",
        .newCrypto (settingsOf env (Getenv env "CRYPTO_NAME"))],
       .returned (d.NewCrypto (settingsOf env (Getenv env "CRYPTO_NAME")))⟩ := by
  simp [addInitialStock, bind, Prog.bind, getenv, loggerFatal, h1, h2, h3, GetBoolDefault,
    GetIntDefault, callNewCrypto, emit, settingsOf]

theorem main_skips_without_token {σ : Type} (d : Deps σ) (env : Env)
    (h : Getenv env "DISCORD_BOT_TOKEN" = "") :
    main d env = ⟨[.wgAdd 1, .newManager, .readEnv "DISCORD_BOT_TOKEN", .wgWait], .blocked⟩ := by
  simp [main, bind, Prog.bind, getenv, emit, Prog.pure, h]

theorem main_of_returned {σ : Type} (d : Deps σ) (env : Env) (t : List (Event σ)) (s : σ)
    (h : Getenv env "DISCORD_BOT_TOKEN" ≠ "")
    (hr : addInitialStock d env = ⟨t, .returned s⟩) :
    main d env =
      ⟨[.wgAdd 1, .newManager, .readEnv "DISCORD_BOT_TOKEN"] ++ t ++
        [.addStock (d.Ticker s) s, .wgWait], .blocked⟩ := by
  simp [main, bind, Prog.bind, getenv, emit, Prog.pure, h, hr]

theorem main_of_exited {σ : Type} (d : Deps σ) (env : Env) (t : List (Event σ)) (c : Nat)
    (h : Getenv env "DISCORD_BOT_TOKEN" ≠ "")
    (hr : addInitialStock d env = ⟨t, .exited c⟩) :
    main d env = ⟨[.wgAdd 1, .newManager, .readEnv "DISCORD_BOT_TOKEN"] ++ t, .exited c⟩ := by
  simp [main, bind, Prog.bind, getenv, emit, Prog.pure, h, hr]

/-- The settings read from the environment do not depend on `STOCK_NAME`. -/
theorem settingsOf_congr (env env2 : Env) (name : String)
    (h : ∀ k, k ≠ "STOCK_NAME" → env2 k = env k) :
    settingsOf env2 name = settingsOf env name := by
  simp [settingsOf, Getenv, boolDefault, intDefault, h]

/-- C1: when DISCORD_BOT_TOKEN or TICKER is empty or unset, `addInitialStock`
ends in the fatal logger (exit code 1); all it has done before is read the
environment, so no tracker constructor (the only way to the network) has
been called; and when the token is empty, TICKER has not been read. -/
theorem addInitialStock_missing_config_fatal {σ : Type} (d : Deps σ) (env : Env)
    (h : Getenv env "DISCORD_BOT_TOKEN" = "" ∨ Getenv env "TICKER" = "") :
    (addInitialStock d env).outcome = .exited 1 ∧
    (∃ reads msg, (addInitialStock d env).trace = reads ++ [.fatal msg] ∧
      ∀ e ∈ reads, e.isRead = true) ∧
    countEvents Event.isConstruct (addInitialStock d env).trace = 0 ∧
    (Getenv env "DISCORD_BOT_TOKEN" = "" →
      Event.readEnv "TICKER" ∉ (addInitialStock d env).trace) := by
  by_cases h1 : Getenv env "DISCORD_BOT_TOKEN" = ""
  · rw [addInitialStock_no_token d env h1]
    refine ⟨rfl, ⟨[.readEnv "DISCORD_BOT_TOKEN"], _, rfl, ?_⟩, ?_, ?_⟩
    · simp [Event.isRead]
    · simp [countEvents, Event.isConstruct]
    · intro _; simp
  · have h2 : Getenv env "TICKER" = "" := h.resolve_left h1
    rw [addInitialStock_no_ticker d env h1 h2]
    refine ⟨rfl, ⟨[.readEnv "DISCORD_BOT_TOKEN", .readEnv "TICKER"], _, rfl, ?_⟩, ?_, ?_⟩
    · simp [Event.isRead]
    · simp [countEvents, Event.isConstruct]
    · intro h3; exact absurd h3 h1

theorem addInitialStock_missing_config_fatal_witness :
    (Getenv Env.empty "DISCORD_BOT_TOKEN" = "" ∨ Getenv Env.empty "TICKER" = "") ∧
    (addInitialStock sampleDeps Env.empty).outcome = .exited 1 :=
  ⟨Or.inl (by decide),
   (addInitialStock_missing_config_fatal sampleDeps Env.empty (Or.inl (by decide))).1⟩

/-- C2, as stated, fails: in the empty environment (no credential) `main`
never reaches the fatal logger; it ends waiting in `wg.Wait()`. -/
theorem main_no_credential_not_fatal :
    Getenv Env.empty "DISCORD_BOT_TOKEN" = "" ∧
    (main sampleDeps Env.empty).outcome = .blocked ∧
    (main sampleDeps Env.empty).outcome ≠ .exited 1 ∧
    countEvents Event.isFatal (main sampleDeps Env.empty).trace = 0 := by
  decide

/-- C2, amended: with the credential missing, `main` skips
`addInitialStock` (the guard of line 33), calls neither the fatal logger nor
a constructor nor `addStock`, and ends waiting in `wg.Wait()`; the fatal
exit with code 1 at startup is the run with the credential present and
TICKER missing. -/
theorem main_fatal_only_on_missing_ticker {σ : Type} (d : Deps σ) (env : Env) :
    (Getenv env "DISCORD_BOT_TOKEN" = "" →
      main d env =
        ⟨[.wgAdd 1, .newManager, .readEnv "DISCORD_BOT_TOKEN", .wgWait], .blocked⟩) ∧
    (Getenv env "DISCORD_BOT_TOKEN" ≠ "" → Getenv env "TICKER" = "" →
      main d env =
        ⟨[.wgAdd 1, .newManager, .readEnv "DISCORD_BOT_TOKEN", .readEnv "DISCORD_BOT_TOKEN",
          .readEnv "TICKER", .fatal "Ticker is not set!"], .exited 1⟩) := by
  refine ⟨main_skips_without_token d env, fun h1 h2 => ?_⟩
  rw [main_of_exited d env _ 1 h1 (addInitialStock_no_ticker d env h1 h2)]
  rfl

theorem main_fatal_only_on_missing_ticker_witness :
    Getenv Env.empty "DISCORD_BOT_TOKEN" = "" ∧
    main sampleDeps Env.empty =
      ⟨[.wgAdd 1, .newManager, .readEnv "DISCORD_BOT_TOKEN", .wgWait], .blocked⟩ :=
  ⟨by decide, (main_fatal_only_on_missing_ticker sampleDeps Env.empty).1 (by decide)⟩

/-- C7: with credential and ticker present, the crypto-name setting alone
selects the constructor: `NewStock` with STOCK_NAME as name when CRYPTO_NAME
is empty or unset, `NewCrypto` with CRYPTO_NAME as name otherwise; the other
six arguments are the same values read from the environment in both
branches; and with CRYPTO_NAME set, the run does not depend on STOCK_NAME. -/
theorem addInitialStock_path_by_crypto_name {σ : Type} (d : Deps σ) (env : Env)
    (h1 : Getenv env "DISCORD_BOT_TOKEN" ≠ "") (h2 : Getenv env "TICKER" ≠ "") :
    (Getenv env "CRYPTO_NAME" = "" →
      (addInitialStock d env).outcome =
        .returned (d.NewStock (settingsOf env (Getenv env "STOCK_NAME"))) ∧
      (addInitialStock d env).trace.filter Event.isConstruct =
        [.newStock (settingsOf env (Getenv env "STOCK_NAME"))]) ∧
    (Getenv env "CRYPTO_NAME" ≠ "" →
      (addInitialStock d env).outcome =
        .returned (d.NewCrypto (settingsOf env (Getenv env "CRYPTO_NAME"))) ∧
      (addInitialStock d env).trace.filter Event.isConstruct =
        [.newCrypto (settingsOf env (Getenv env "CRYPTO_NAME"))] ∧
      ∀ env2 : Env, (∀ k, k ≠ "STOCK_NAME" → env2 k = env k) →
        addInitialStock d env2 = addInitialStock d env) := by
  refine ⟨fun h3 => ?_, fun h3 => ?_⟩
  · rw [addInitialStock_stock d env h1 h2 h3]
    simp [Event.isConstruct]
  · rw [addInitialStock_crypto d env h1 h2 h3]
    refine ⟨rfl, by simp [Event.isConstruct], fun env2 hk => ?_⟩
    have e1 : Getenv env2 "DISCORD_BOT_TOKEN" = Getenv env "DISCORD_BOT_TOKEN" := by
      simp [Getenv, hk]
    have e2 : Getenv env2 "TICKER" = Getenv env "TICKER" := by simp [Getenv, hk]
    have e3 : Getenv env2 "CRYPTO_NAME" = Getenv env "CRYPTO_NAME" := by simp [Getenv, hk]
    rw [addInitialStock_crypto d env2 (e1 ▸ h1) (e2 ▸ h2) (e3 ▸ h3), e3,
      settingsOf_congr env env2 _ hk]

theorem addInitialStock_path_by_crypto_name_witness :
    (Getenv (((Env.empty.set "DISCORD_BOT_TOKEN" "tok").set "TICKER" "btc").set
        "CRYPTO_NAME" "bitcoin") "DISCORD_BOT_TOKEN" ≠ "" ∧
     Getenv (((Env.empty.set "DISCORD_BOT_TOKEN" "tok").set "TICKER" "btc").set
        "CRYPTO_NAME" "bitcoin") "TICKER" ≠ "" ∧
     Getenv (((Env.empty.set "DISCORD_BOT_TOKEN" "tok").set "TICKER" "btc").set
        "CRYPTO_NAME" "bitcoin") "CRYPTO_NAME" ≠ "") ∧
    (addInitialStock sampleDeps (((Env.empty.set "DISCORD_BOT_TOKEN" "tok").set
        "TICKER" "btc").set "CRYPTO_NAME" "bitcoin")).outcome =
      .returned (true, ⟨"btc", "tok", "bitcoin", false, false, false, 60⟩) :=
  ⟨by decide,
   ((addInitialStock_path_by_crypto_name sampleDeps
      (((Env.empty.set "DISCORD_BOT_TOKEN" "tok").set "TICKER" "btc").set
        "CRYPTO_NAME" "bitcoin") (by decide) (by decide)).2 (by decide)).1.trans (by decide)⟩


/-! ## `strconv`: parsing the decimal text of an integer gives it back -/

theorem digitVal_digitChar (m : Nat) (h : m < 10) : digitVal (Nat.digitChar m) = some m := by
  interval_cases m <;> decide

theorem parseUintAux_toDigitsCore (fuel : Nat) :
    ∀ (n : Nat) (ds : List Char), n < fuel →
      ∃ k, ∀ acc, parseUintAux (Nat.toDigitsCore 10 fuel n ds) acc =
        parseUintAux ds (acc * 10 ^ k + n) := by
  induction fuel with
  | zero => intro n ds h; exact absurd h (Nat.not_lt_zero n)
  | succ fuel ih =>
    intro n ds h
    have hd : digitVal (Nat.digitChar (n % 10)) = some (n % 10) :=
      digitVal_digitChar _ (Nat.mod_lt _ (by decide))
    unfold Nat.toDigitsCore
    by_cases h0 : n / 10 = 0
    · refine ⟨1, fun acc => ?_⟩
      have hn : n % 10 = n := Nat.mod_eq_of_lt (by omega)
      rw [hn] at hd
      simp only [h0, if_true, parseUintAux, hd, hn, pow_one]
    · have hlt : n / 10 < fuel := by omega
      obtain ⟨k, hk⟩ := ih (n / 10) (Nat.digitChar (n % 10) :: ds) hlt
      refine ⟨k + 1, fun acc => ?_⟩
      simp only [h0, if_false, hk, parseUintAux, hd]
      congr 1
      have := Nat.div_add_mod n 10
      rw [pow_succ]
      nlinarith [Nat.div_add_mod n 10]

theorem toDigitsCore_ne_nil (fuel : Nat) :
    ∀ (n : Nat) (ds : List Char), (0 < fuel ∨ ds ≠ []) → Nat.toDigitsCore 10 fuel n ds ≠ [] := by
  induction fuel with
  | zero =>
    intro n ds h
    rcases h with h | h
    · exact absurd h (Nat.lt_irrefl 0)
    · simpa [Nat.toDigitsCore] using h
  | succ fuel ih =>
    intro n ds _
    unfold Nat.toDigitsCore
    by_cases h0 : n / 10 = 0
    · simp [h0]
    · simp only [h0, if_false]
      exact ih _ _ (Or.inr (List.cons_ne_nil _ _))

theorem parseUint_toDigits (n : Nat) : parseUint (Nat.toDigits 10 n) = some n := by
  obtain ⟨k, hk⟩ := parseUintAux_toDigitsCore (n + 1) n [] (Nat.lt_succ_self n)
  have hne : Nat.toDigits 10 n ≠ [] := toDigitsCore_ne_nil (n + 1) n [] (Or.inl (Nat.succ_pos n))
  have h0 := hk 0
  simp only [parseUintAux, zero_mul, zero_add] at h0
  unfold parseUint
  cases hl : Nat.toDigits 10 n with
  | nil => exact absurd hl hne
  | cons c cs =>
    show parseUintAux (c :: cs) 0 = some n
    rw [← hl]; exact h0

theorem head_digit_of_parseUint (c : Char) (cs : List Char) (n : Nat)
    (h : parseUint (c :: cs) = some n) : c ≠ '-' ∧ c ≠ '+' := by
  simp only [parseUint, parseUintAux] at h
  constructor
  · rintro rfl; simp [digitVal] at h
  · rintro rfl; simp [digitVal] at h

theorem parseIntChars_natRepr (n : Nat) (h : n < 2 ^ 63) :
    parseIntChars (Nat.repr n).toList = some (n : Int) := by
  have hp := parseUint_toDigits n
  have hrepr : (Nat.repr n).toList = Nat.toDigits 10 n := by
    simp [Nat.repr, List.asString]
  rw [hrepr]
  cases hl : Nat.toDigits 10 n with
  | nil => rw [hl] at hp; simp [parseUint] at hp
  | cons c cs =>
    rw [hl] at hp
    obtain ⟨hm, hpl⟩ := head_digit_of_parseUint c cs n hp
    have h2 : n < 9223372036854775808 := by norm_num at h; exact h
    simp [parseIntChars, hm, hpl, hp, h2]

/-- The function `ParseInt` reads back the decimal text of every 64-bit signed integer. -/
theorem ParseInt_decimal (n : Int) (hlo : -2 ^ 63 ≤ n) (hhi : n < 2 ^ 63) :
    ParseInt (decimal n) = some n := by
  unfold ParseInt decimal
  cases n with
  | ofNat m =>
    have hm : m < 2 ^ 63 := by
      have h2 : (m : Int) < 2 ^ 63 := hhi
      exact_mod_cast h2
    show parseIntChars (Nat.repr m).toList = some (Int.ofNat m)
    exact parseIntChars_natRepr m hm
  | negSucc m =>
    have hm : m + 1 ≤ 2 ^ 63 := by
      have : -(2 : Int) ^ 63 ≤ -((m : Int) + 1) := by
        simpa [Int.negSucc_eq] using hlo
      have h2 : ((m : Int) + 1) ≤ 2 ^ 63 := by linarith
      exact_mod_cast h2
    show parseIntChars ("-" ++ Nat.repr (m + 1)).toList = some (Int.negSucc m)
    have hp := parseUint_toDigits (m + 1)
    have hrepr : ("-" ++ Nat.repr (m + 1)).toList = '-' :: Nat.toDigits 10 (m + 1) := by
      simp [Nat.repr, List.asString, String.toList]
    rw [hrepr]
    have hm2 : m + 1 ≤ 9223372036854775808 := by norm_num at hm; exact hm
    simp only [parseIntChars]
    simp only [true_or, if_true, hp, decide_True, hm2, Int.negSucc_eq]
    simp
    omega


/-- C8: with credential and ticker present there is exactly one constructor
call, and its optional arguments take the documented defaults: nickname,
color and flashChange are false when their variable is unset, frequency is
60 when FREQUENCY is unset, and frequency is n when FREQUENCY holds text
that `strconv.Atoi` reads as n, in particular the decimal text of any n of
type `int`. -/
theorem addInitialStock_optional_defaults {σ : Type} (d : Deps σ) (env : Env)
    (h1 : Getenv env "DISCORD_BOT_TOKEN" ≠ "") (h2 : Getenv env "TICKER" ≠ "") :
    ∃ a : TrackerArgs,
      ((addInitialStock d env).trace.filter Event.isConstruct = [.newStock a] ∨
       (addInitialStock d env).trace.filter Event.isConstruct = [.newCrypto a]) ∧
      (env "SET_NICKNAME" = none → a.nickname = false) ∧
      (env "SET_COLOR" = none → a.color = false) ∧
      (env "FLASH_CHANGE" = none → a.flashChange = false) ∧
      (env "FREQUENCY" = none → a.frequency = 60) ∧
      (∀ s n, env "FREQUENCY" = some s → Atoi s = some n → a.frequency = n) ∧
      (∀ n : Int, -2 ^ 63 ≤ n → n < 2 ^ 63 → env "FREQUENCY" = some (decimal n) →
        a.frequency = n) := by
  have key : ∀ name : String,
      (env "SET_NICKNAME" = none → (settingsOf env name).nickname = false) ∧
      (env "SET_COLOR" = none → (settingsOf env name).color = false) ∧
      (env "FLASH_CHANGE" = none → (settingsOf env name).flashChange = false) ∧
      (env "FREQUENCY" = none → (settingsOf env name).frequency = 60) ∧
      (∀ s n, env "FREQUENCY" = some s → Atoi s = some n →
        (settingsOf env name).frequency = n) ∧
      (∀ n : Int, -2 ^ 63 ≤ n → n < 2 ^ 63 → env "FREQUENCY" = some (decimal n) →
        (settingsOf env name).frequency = n) := by
    intro name
    refine ⟨fun h => ?_, fun h => ?_, fun h => ?_, fun h => ?_, fun s n h hs => ?_,
      fun n hlo hhi h => ?_⟩
    · simp [settingsOf, boolDefault, h]
    · simp [settingsOf, boolDefault, h]
    · simp [settingsOf, boolDefault, h]
    · simp [settingsOf, intDefault, h]
    · simp [settingsOf, intDefault, h, hs]
    · simp [settingsOf, intDefault, h, Atoi, ParseInt_decimal n hlo hhi]
  by_cases h3 : Getenv env "CRYPTO_NAME" = ""
  · refine ⟨settingsOf env (Getenv env "STOCK_NAME"), Or.inl ?_, key _⟩
    rw [addInitialStock_stock d env h1 h2 h3]
    simp [Event.isConstruct]
  · refine ⟨settingsOf env (Getenv env "CRYPTO_NAME"), Or.inr ?_, key _⟩
    rw [addInitialStock_crypto d env h1 h2 h3]
    simp [Event.isConstruct]

theorem addInitialStock_optional_defaults_witness :
    (Getenv (((Env.empty.set "DISCORD_BOT_TOKEN" "tok").set "TICKER" "AAPL").set
        "FREQUENCY" "30") "DISCORD_BOT_TOKEN" ≠ "" ∧
     Getenv (((Env.empty.set "DISCORD_BOT_TOKEN" "tok").set "TICKER" "AAPL").set
        "FREQUENCY" "30") "TICKER" ≠ "") ∧
    ∃ a : TrackerArgs,
      ((addInitialStock sampleDeps (((Env.empty.set "DISCORD_BOT_TOKEN" "tok").set
          "TICKER" "AAPL").set "FREQUENCY" "30")).trace.filter Event.isConstruct =
          [.newStock a] ∨
       (addInitialStock sampleDeps (((Env.empty.set "DISCORD_BOT_TOKEN" "tok").set
          "TICKER" "AAPL").set "FREQUENCY" "30")).trace.filter Event.isConstruct =
          [.newCrypto a]) ∧
      a.nickname = false ∧ a.color = false ∧ a.flashChange = false ∧ a.frequency = 30 := by
  refine ⟨by decide, ?_⟩
  obtain ⟨a, ha, hn, hc, hf, _, hfreq, _⟩ :=
    addInitialStock_optional_defaults sampleDeps
      (((Env.empty.set "DISCORD_BOT_TOKEN" "tok").set "TICKER" "AAPL").set "FREQUENCY" "30")
      (by decide) (by decide)
  exact ⟨a, ha, hn (by decide), hc (by decide), hf (by decide),
    hfreq "30" 30 (by decide) (by decide)⟩

/-- C9: with credential and ticker present, `main` runs `addInitialStock`
once and registers its result once, under the key that is the tracker's own
`Ticker` field: one constructor call, one `addStock` call.  With the
credential absent there is neither.  No run has more than one registration. -/
theorem main_registers_at_most_one {σ : Type} (d : Deps σ) (env : Env) :
    (Getenv env "DISCORD_BOT_TOKEN" ≠ "" → Getenv env "TICKER" ≠ "" →
      ∃ s, (addInitialStock d env).outcome = .returned s ∧
        (main d env).trace =
          [.wgAdd 1, .newManager, .readEnv "DISCORD_BOT_TOKEN"] ++
            (addInitialStock d env).trace ++ [.addStock (d.Ticker s) s, .wgWait] ∧
        (main d env).trace.filter Event.isRegister = [.addStock (d.Ticker s) s] ∧
        countEvents Event.isConstruct (main d env).trace = 1) ∧
    (Getenv env "DISCORD_BOT_TOKEN" = "" →
      countEvents Event.isConstruct (main d env).trace = 0 ∧
      countEvents Event.isRegister (main d env).trace = 0) ∧
    countEvents Event.isRegister (main d env).trace ≤ 1 := by
  have present : Getenv env "DISCORD_BOT_TOKEN" ≠ "" → Getenv env "TICKER" ≠ "" →
      ∃ s, (addInitialStock d env).outcome = .returned s ∧
        (main d env).trace =
          [.wgAdd 1, .newManager, .readEnv "DISCORD_BOT_TOKEN"] ++
            (addInitialStock d env).trace ++ [.addStock (d.Ticker s) s, .wgWait] ∧
        (main d env).trace.filter Event.isRegister = [.addStock (d.Ticker s) s] ∧
        countEvents Event.isConstruct (main d env).trace = 1 := by
    intro h1 h2
    by_cases h3 : Getenv env "CRYPTO_NAME" = ""
    · have hr := addInitialStock_stock d env h1 h2 h3
      refine ⟨d.NewStock (settingsOf env (Getenv env "STOCK_NAME")), ?_, ?_, ?_, ?_⟩
      · rw [hr]
      · rw [main_of_returned d env _ _ h1 hr, hr]
      · rw [main_of_returned d env _ _ h1 hr]; simp [Event.isRegister]
      · rw [main_of_returned d env _ _ h1 hr]; simp [countEvents, Event.isConstruct]
    · have hr := addInitialStock_crypto d env h1 h2 h3
      refine ⟨d.NewCrypto (settingsOf env (Getenv env "CRYPTO_NAME")), ?_, ?_, ?_, ?_⟩
      · rw [hr]
      · rw [main_of_returned d env _ _ h1 hr, hr]
      · rw [main_of_returned d env _ _ h1 hr]; simp [Event.isRegister]
      · rw [main_of_returned d env _ _ h1 hr]; simp [countEvents, Event.isConstruct]
  have absent : Getenv env "DISCORD_BOT_TOKEN" = "" →
      countEvents Event.isConstruct (main d env).trace = 0 ∧
      countEvents Event.isRegister (main d env).trace = 0 := by
    intro h1
    rw [main_skips_without_token d env h1]
    simp [countEvents, Event.isConstruct, Event.isRegister]
  refine ⟨present, absent, ?_⟩
  by_cases h1 : Getenv env "DISCORD_BOT_TOKEN" = ""
  · rw [(absent h1).2]; exact Nat.zero_le 1
  · by_cases h2 : Getenv env "TICKER" = ""
    · rw [main_of_exited d env _ 1 h1 (addInitialStock_no_ticker d env h1 h2)]
      simp [countEvents, Event.isRegister]
    · obtain ⟨s, _, _, hreg, _⟩ := present h1 h2
      simp [countEvents, hreg]

theorem main_registers_at_most_one_witness :
    (Getenv ((Env.empty.set "DISCORD_BOT_TOKEN" "tok").set "TICKER" "AAPL")
        "DISCORD_BOT_TOKEN" ≠ "" ∧
     Getenv ((Env.empty.set "DISCORD_BOT_TOKEN" "tok").set "TICKER" "AAPL") "TICKER" ≠ "") ∧
    countEvents Event.isRegister
      (main sampleDeps ((Env.empty.set "DISCORD_BOT_TOKEN" "tok").set "TICKER" "AAPL")).trace
      = 1 := by
  refine ⟨by decide, ?_⟩
  obtain ⟨s, _, _, hreg, _⟩ :=
    (main_registers_at_most_one sampleDeps
      ((Env.empty.set "DISCORD_BOT_TOKEN" "tok").set "TICKER" "AAPL")).1 (by decide) (by decide)
  simp [countEvents, hreg]


/-! ## `net/url`: the endpoint followed by a path segment -/

theorem utf8Chars_append (a b : List Char) : utf8Chars (a ++ b) = utf8Chars a ++ utf8Chars b := by
  induction a with
  | nil => rfl
  | cons c cs ih => simp [utf8Chars, ih]

theorem utf8_append (a b : String) : utf8 (a ++ b) = utf8 a ++ utf8 b := by
  simp [utf8, String.toList, String.data_append, utf8Chars_append]

theorem segmentByte_lt (b : Nat) (h : isSegmentByte b = true) : b < 127 := by
  simp only [isSegmentByte, isAlnum, Bool.or_eq_true, Bool.and_eq_true, decide_eq_true_eq,
    List.contains, List.elem_eq_mem, List.mem_cons, List.mem_singleton, List.not_mem_nil,
    or_false] at h
  omega

theorem segmentByte_table :
    ∀ b, b < 127 → isSegmentByte b = true →
      (b ≠ 35 ∧ b ≠ 63 ∧ b ≠ 37 ∧ b ≠ 47 ∧ ¬ b < 32 ∧
      ([33, 36, 38, 39, 40, 41, 42, 43, 44, 59, 61, 58, 64, 91, 93, 37].contains b ||
        !shouldEscape b .path) = true) := by
  decide

theorem segmentByte_facts (b : Nat) (h : isSegmentByte b = true) :
    b ≠ 35 ∧ b ≠ 63 ∧ b ≠ 37 ∧ b ≠ 47 ∧ ¬ b < 32 ∧ b ≠ 127 ∧
    ([33, 36, 38, 39, 40, 41, 42, 43, 44, 59, 61, 58, 64, 91, 93, 37].contains b ||
      !shouldEscape b .path) = true := by
  have hlt := segmentByte_lt b h
  obtain ⟨h1, h2, h3, h4, h5, h6⟩ := segmentByte_table b hlt h
  exact ⟨h1, h2, h3, h4, h5, by omega, h6⟩

theorem cutByte_none (sep : Nat) (s : Bytes) (h : sep ∉ s) : cutByte sep s = none := by
  induction s with
  | nil => rfl
  | cons c cs ih =>
    have hc : c ≠ sep := fun e => h (e ▸ List.mem_cons_self c cs)
    have hcs : sep ∉ cs := fun m => h (List.mem_cons_of_mem c m)
    simp [cutByte, hc, ih hcs]

theorem countByte_zero (sep : Nat) (s : Bytes) (h : sep ∉ s) : countByte sep s = 0 := by
  induction s with
  | nil => rfl
  | cons c cs ih =>
    have hc : c ≠ sep := fun e => h (e ▸ List.mem_cons_self c cs)
    have hcs : sep ∉ cs := fun m => h (List.mem_cons_of_mem c m)
    have h2 := ih hcs
    unfold countByte at h2 ⊢
    rw [List.filter_cons_of_neg (by simp [hc])]
    exact h2

theorem containsCTL_false (s : Bytes) (h : ∀ b ∈ s, ¬ b < 32 ∧ b ≠ 127) :
    containsCTL s = false := by
  unfold containsCTL
  rw [Bool.eq_false_iff]
  intro hany
  rw [List.any_eq_true] at hany
  obtain ⟨b, hb, hp⟩ := hany
  have := h b hb
  simp only [Bool.or_eq_true, decide_eq_true_eq] at hp
  omega

theorem unescape_path_id (s : Bytes) (h : 37 ∉ s) : unescape .path s = .ok s := by
  induction s with
  | nil => rfl
  | cons c cs ih =>
    have hc : c ≠ 37 := fun e => h (e ▸ List.mem_cons_self c cs)
    have hcs : 37 ∉ cs := fun m => h (List.mem_cons_of_mem c m)
    unfold unescape
    simp [hc, ih hcs]

theorem validEncoded_path (s : Bytes)
    (h : ∀ b ∈ s, ([33, 36, 38, 39, 40, 41, 42, 43, 44, 59, 61, 58, 64, 91, 93, 37].contains b ||
      !shouldEscape b .path) = true) : validEncoded .path s = true := by
  unfold validEncoded
  rw [List.all_eq_true]
  exact h

/-- What `url.Parse` makes of the endpoint followed by bytes that may stand
in a path segment as they are. -/
theorem urlParse_segment (tb : Bytes) (hseg : ∀ b ∈ tb, isSegmentByte b = true) :
    urlParse (utf8 geckoBase ++ tb) =
      .ok { Scheme := utf8 "https", Host := utf8 "api.coingecko.com",
            Path := utf8 "/api/v3/coins/" ++ tb,
            RawPath := if escape .path (utf8 "/api/v3/coins/" ++ tb) = utf8 "/api/v3/coins/" ++ tb
              then [] else utf8 "/api/v3/coins/" ++ tb } := by
  have h35 : (35 : Nat) ∉ tb := fun m => (segmentByte_facts 35 (hseg 35 m)).1 rfl
  have h63 : (63 : Nat) ∉ tb := fun m => (segmentByte_facts 63 (hseg 63 m)).2.1 rfl
  have h37 : (37 : Nat) ∉ tb := fun m => (segmentByte_facts 37 (hseg 37 m)).2.2.1 rfl
  have hctl : ∀ b ∈ tb, ¬ b < 32 ∧ b ≠ 127 := fun b m =>
    ⟨(segmentByte_facts b (hseg b m)).2.2.2.2.1, (segmentByte_facts b (hseg b m)).2.2.2.2.2.1⟩
  have m35 : (35 : Nat) ∉ utf8 geckoBase := by decide
  have m63 : (63 : Nat) ∉ utf8 "//api.coingecko.com/api/v3/coins/" := by decide
  have m37 : (37 : Nat) ∉ (47 :: utf8 "api/v3/coins/") := by decide
  have c35 : cutByte 35 (utf8 geckoBase ++ tb) = none :=
    cutByte_none _ _ (by simp [h35, m35])
  have cctl : containsCTL (utf8 geckoBase ++ tb) = false :=
    containsCTL_false _ (by
      intro b hb
      rcases List.mem_append.mp hb with h | h
      · have hall : ∀ x ∈ utf8 geckoBase, ¬ x < 32 ∧ x ≠ 127 := by decide
        exact hall b h
      · exact hctl b h)
  have hstar : ¬ (utf8 geckoBase ++ tb = [42]) := by
    intro h
    have h2 : (utf8 geckoBase ++ tb).head? = some 42 := by rw [h]; rfl
    have h3 : (utf8 geckoBase ++ tb).head? = some 104 := rfl
    rw [h3] at h2
    exact absurd h2 (by decide)
  have csch : getScheme (utf8 geckoBase ++ tb) =
      .ok (utf8 "https", utf8 "//api.coingecko.com/api/v3/coins/" ++ tb) := rfl
  have c63 : cutByte 63 (utf8 "//api.coingecko.com/api/v3/coins/" ++ tb) = none :=
    cutByte_none _ _ (by simp [h63, m63])
  have n63 : countByte 63 (utf8 "//api.coingecko.com/api/v3/coins/" ++ tb) = 0 :=
    countByte_zero _ _ (by simp [h63, m63])
  have hun : unescape .path (47 :: (utf8 "api/v3/coins/" ++ tb)) =
      .ok (47 :: (utf8 "api/v3/coins/" ++ tb)) :=
    unescape_path_id _ (by
      intro m
      rcases List.mem_cons.mp m with h | h
      · exact absurd h (by decide)
      · rcases List.mem_append.mp h with h | h
        · exact m37 (List.mem_cons_of_mem _ h)
        · exact h37 h)
  have hfinal : parseNoFragment (utf8 geckoBase ++ tb) =
      .ok { Scheme := utf8 "https", Host := utf8 "api.coingecko.com",
            Path := utf8 "/api/v3/coins/" ++ tb,
            RawPath := if escape .path (utf8 "/api/v3/coins/" ++ tb) = utf8 "/api/v3/coins/" ++ tb
              then [] else utf8 "/api/v3/coins/" ++ tb } := by
    unfold parseNoFragment
    rw [cctl, if_neg (by decide), if_neg hstar, csch]
    have hhead : (utf8 "//api.coingecko.com/api/v3/coins/" ++ tb).head? = some 47 := rfl
    have htake : (utf8 "//api.coingecko.com/api/v3/coins/" ++ tb).take 2 = [47, 47] := rfl
    have hlow : toLowerASCII (utf8 "https") = utf8 "https" := rfl
    have hne : utf8 "https" ≠ [] := by decide
    have cauth : cutByte 47 ((utf8 "//api.coingecko.com/api/v3/coins/" ++ tb).drop 2) =
        some (utf8 "api.coingecko.com", utf8 "api/v3/coins/" ++ tb) := rfl
    have pauth : parseAuthority (utf8 "api.coingecko.com") =
        .ok (none, utf8 "api.coingecko.com") := rfl
    simp only [n63, c63, Nat.zero_ne_one, decide_False, Bool.and_false, Bool.false_eq_true,
      if_false, hhead, htake, hlow, hne, cauth, pauth, ne_eq, not_true_eq_false, false_and,
      not_false_eq_true, true_or, true_and, if_true]
    have hset : URL.setPath
        { Scheme := utf8 "https", Host := utf8 "api.coingecko.com" }
        (47 :: (utf8 "api/v3/coins/" ++ tb)) =
        .ok { Scheme := utf8 "https", Host := utf8 "api.coingecko.com",
              Path := utf8 "/api/v3/coins/" ++ tb,
              RawPath :=
                if escape .path (utf8 "/api/v3/coins/" ++ tb) = utf8 "/api/v3/coins/" ++ tb
                then [] else utf8 "/api/v3/coins/" ++ tb } := by
      unfold URL.setPath
      rw [hun]
      rfl
    exact hset
  simp only [urlParse, c35, hfinal]
  rfl

theorem cutLastByte_none (sep : Nat) (s : Bytes) (h : sep ∉ s) : cutLastByte sep s = none := by
  induction s with
  | nil => rfl
  | cons c cs ih =>
    have hc : c ≠ sep := fun e => h (e ▸ List.mem_cons_self c cs)
    have hcs : sep ∉ cs := fun m => h (List.mem_cons_of_mem c m)
    simp [cutLastByte, hc, ih hcs]

theorem cutLastByte_append (sep : Nat) (a t : Bytes) (h : sep ∉ t) :
    cutLastByte sep (a ++ sep :: t) = some (a, sep :: t) := by
  induction a with
  | nil => simp [cutLastByte, cutLastByte_none sep t h]
  | cons c cs ih => simp [cutLastByte, ih]

theorem lastSegment_append (a t : Bytes) (h : 47 ∉ t) : lastSegment (a ++ 47 :: t) = t := by
  simp [lastSegment, cutLastByte_append 47 a t h]

/-- The URL of the request for a symbol that is a path segment written
without escapes. -/
theorem requestURL_segment (ticker : String) (hseg : isSegment ticker = true) :
    ∃ u : URL, requestURL (geckoBase ++ ticker) = .ok u ∧
      u.render = utf8 (geckoBase ++ ticker) ∧
      u.Scheme = utf8 "https" ∧ u.Host = utf8 "api.coingecko.com" ∧
      u.Path = utf8 ("/api/v3/coins/" ++ ticker) ∧
      lastSegment u.Path = utf8 ticker ∧
      u.RawQuery = [] ∧ u.Fragment = [] ∧
      u.RequestURI = utf8 ("/api/v3/coins/" ++ ticker) := by
  have hb : ∀ b ∈ utf8 ticker, isSegmentByte b = true := by
    simpa [isSegment, List.all_eq_true] using hseg
  have h37 : (37 : Nat) ∉ utf8 ticker := fun m => (segmentByte_facts 37 (hb 37 m)).2.2.1 rfl
  have h47 : (47 : Nat) ∉ utf8 ticker := fun m => (segmentByte_facts 47 (hb 47 m)).2.2.2.1 rfl
  have hparse := urlParse_segment (utf8 ticker) hb
  have hpath : utf8 ("/api/v3/coins/" ++ ticker) = utf8 "/api/v3/coins/" ++ utf8 ticker :=
    utf8_append _ _
  have hun : unescape .path (utf8 "/api/v3/coins/" ++ utf8 ticker) =
      .ok (utf8 "/api/v3/coins/" ++ utf8 ticker) :=
    unescape_path_id _ (by
      intro m
      rcases List.mem_append.mp m with h | h
      · exact absurd h (by decide)
      · exact h37 h)
  have hvalid : validEncoded .path (utf8 "/api/v3/coins/" ++ utf8 ticker) = true :=
    validEncoded_path _ (by
      intro b m
      rcases List.mem_append.mp m with h | h
      · have hall : ∀ x ∈ utf8 "/api/v3/coins/",
            ([33, 36, 38, 39, 40, 41, 42, 43, 44, 59, 61, 58, 64, 91, 93, 37].contains x ||
              !shouldEscape x .path) = true := by decide
        exact hall b h
      · exact (segmentByte_facts b (hb b h)).2.2.2.2.2.2)
  have hne : utf8 "/api/v3/coins/" ++ utf8 ticker ≠ [] := by
    intro h
    have h2 : (utf8 "/api/v3/coins/" ++ utf8 ticker).head? = some 47 := rfl
    rw [h] at h2
    exact absurd h2 (by decide)
  have hstar : utf8 "/api/v3/coins/" ++ utf8 ticker ≠ [42] := by
    intro h
    have h2 : (utf8 "/api/v3/coins/" ++ utf8 ticker).head? = some 47 := rfl
    rw [h] at h2
    exact absurd h2 (by decide)
  -- the escaped path is the path as written, whether or not `RawPath` is kept
  have hesc : ∀ u : URL, u.Path = utf8 "/api/v3/coins/" ++ utf8 ticker →
      u.RawPath = (if escape .path (utf8 "/api/v3/coins/" ++ utf8 ticker) =
        utf8 "/api/v3/coins/" ++ utf8 ticker then [] else utf8 "/api/v3/coins/" ++ utf8 ticker) →
      u.EscapedPath = utf8 "/api/v3/coins/" ++ utf8 ticker := by
    intro u hp hraw
    by_cases he : escape .path (utf8 "/api/v3/coins/" ++ utf8 ticker) =
        utf8 "/api/v3/coins/" ++ utf8 ticker
    · rw [if_pos he] at hraw
      simp [URL.EscapedPath, hp, hraw, hstar, he]
    · rw [if_neg he] at hraw
      simp [URL.EscapedPath, hp, hraw, hne, hvalid, unescapesTo, hun]
  obtain ⟨U, hU⟩ : ∃ U : URL, U =
      { Scheme := utf8 "https", Host := utf8 "api.coingecko.com",
        Path := utf8 "/api/v3/coins/" ++ utf8 ticker,
        RawPath := if escape .path (utf8 "/api/v3/coins/" ++ utf8 ticker) =
          utf8 "/api/v3/coins/" ++ utf8 ticker then []
          else utf8 "/api/v3/coins/" ++ utf8 ticker } := ⟨_, rfl⟩
  have hS : U.Scheme = utf8 "https" := by rw [hU]
  have hH : U.Host = utf8 "api.coingecko.com" := by rw [hU]
  have hP : U.Path = utf8 "/api/v3/coins/" ++ utf8 ticker := by rw [hU]
  have hR : U.RawPath = (if escape .path (utf8 "/api/v3/coins/" ++ utf8 ticker) =
      utf8 "/api/v3/coins/" ++ utf8 ticker then [] else utf8 "/api/v3/coins/" ++ utf8 ticker) := by
    rw [hU]
  have hO : U.Opaque = [] := by rw [hU]
  have hUs : U.User = none := by rw [hU]
  have hOm : U.OmitHost = false := by rw [hU]
  have hF : U.ForceQuery = false := by rw [hU]
  have hQ : U.RawQuery = [] := by rw [hU]
  have hFr : U.Fragment = [] := by rw [hU]
  have hE : U.EscapedPath = utf8 "/api/v3/coins/" ++ utf8 ticker := hesc U hP hR
  have hhead : (utf8 "/api/v3/coins/" ++ utf8 ticker).head? = some 47 := rfl
  have hhost : escape .host (utf8 "api.coingecko.com") = utf8 "api.coingecko.com" := by decide
  have hHne : utf8 "api.coingecko.com" ≠ [] := by decide
  have hSne : utf8 "https" ≠ [] := by decide
  refine ⟨U, ?_, ?_, hS, hH, ?_, ?_, hQ, hFr, ?_⟩
  · unfold requestURL
    rw [utf8_append, hparse, hU]
    rfl
  · rw [utf8_append]
    simp only [URL.render, URL.renderHier, hE, hS, hH, hO, hUs, hOm, hF, hQ, hFr, hhead, hhost,
      hHne, hSne, hne, ne_eq, not_true_eq_false, not_false_eq_true, if_true, if_false, true_or,
      true_and, false_and, and_false, and_true, Bool.false_eq_true, Option.isSome_none,
      Option.isNone_none, or_false, List.append_nil, false_or, List.append_eq_nil, and_self,
      List.cons_ne_self, reduceCtorEq]
    rfl
  · rw [hP]; exact hpath.symm
  · rw [hP]
    exact lastSegment_append (utf8 "/api/v3/coins") (utf8 ticker) h47
  · rw [hpath]
    simp only [URL.RequestURI, hO, hE, hne, hF, hQ, if_true, if_false, ne_eq, not_true_eq_false,
      Bool.false_eq_true, false_or, List.append_nil]

/-! ## The CoinGecko client -/

theorem sprintfLoop_GeckoURL (ticker : String) :
    sprintfLoop GeckoURL.toList [ticker] = geckoBase.toList ++ ticker.toList := by
  have h : sprintfLoop GeckoURL.toList [ticker] = geckoBase.toList ++ (ticker.toList ++ []) := rfl
  rw [h, List.append_nil]

theorem Sprintf_GeckoURL (ticker : String) : Sprintf GeckoURL ticker = geckoBase ++ ticker := by
  unfold Sprintf
  rw [sprintfLoop_GeckoURL]
  apply String.ext
  simp [String.toList]

theorem built_request (u : URL) :
    (Request.addHeader (Request.addHeader ⟨"GET", u, [], none, u.Host⟩
      "User-Agent" "Mozilla/5.0") "accept" "application/json") = geckoRequest u := by
  rfl

theorem NewRequest_GET (url : String) :
    NewRequest "GET" url none =
      match requestURL url with
      | .error e => .error (.url e)
      | .ok u => .ok ⟨"GET", u, [], none, u.Host⟩ := by
  unfold NewRequest requestURL
  cases urlParse (utf8 url) <;> rfl

/-- The four ways a call of `GetCryptoPrice` can go. -/
theorem GetCryptoPrice_build_fails (net : Net) (ticker : String) (e : UrlError)
    (h : requestURL (geckoBase ++ ticker) = .error e) :
    GetCryptoPrice net ticker = ⟨GeckoPriceResults.zero, some (.url e), [], []⟩ := by
  unfold GetCryptoPrice
  simp only [Sprintf_GeckoURL, NewRequest_GET, h]

theorem GetCryptoPrice_transport_fails (net : Net) (ticker msg : String) (u : URL)
    (h : requestURL (geckoBase ++ ticker) = .ok u)
    (hdo : (net.Do (geckoRequest u)).result = .error msg) :
    GetCryptoPrice net ticker =
      ⟨GeckoPriceResults.zero, some (.transport msg), [geckoRequest u],
       (net.Do (geckoRequest u)).issued⟩ := by
  unfold GetCryptoPrice
  simp only [Sprintf_GeckoURL, NewRequest_GET, h, built_request, hdo]

theorem GetCryptoPrice_read_fails (net : Net) (ticker msg : String) (u : URL)
    (resp : Response) (h : requestURL (geckoBase ++ ticker) = .ok u)
    (hdo : (net.Do (geckoRequest u)).result = .ok resp)
    (hbody : resp.Body = .error msg) :
    GetCryptoPrice net ticker =
      ⟨GeckoPriceResults.zero, some (.read msg), [geckoRequest u],
       (net.Do (geckoRequest u)).issued⟩ := by
  unfold GetCryptoPrice
  simp only [Sprintf_GeckoURL, NewRequest_GET, h, built_request, hdo, hbody]

theorem GetCryptoPrice_decodes (net : Net) (ticker body : String) (u : URL) (resp : Response)
    (h : requestURL (geckoBase ++ ticker) = .ok u)
    (hdo : (net.Do (geckoRequest u)).result = .ok resp)
    (hbody : resp.Body = .ok body) :
    GetCryptoPrice net ticker =
      ⟨(Unmarshal body GeckoPriceResults.zero).1, (Unmarshal body GeckoPriceResults.zero).2,
       [geckoRequest u], (net.Do (geckoRequest u)).issued⟩ := by
  unfold GetCryptoPrice
  simp only [Sprintf_GeckoURL, NewRequest_GET, h, built_request, hdo, hbody]
  rcases Unmarshal body GeckoPriceResults.zero with ⟨p, (_ | e)⟩ <;> rfl

/-! ## Decoding -/

/-- Decoding a value of the documented shape into the zero value. -/
theorem decodeGecko_shape (id symbol name usd change : String) :
    decodeGecko (geckoShape id symbol name usd change) GeckoPriceResults.zero none =
      (⟨id, symbol, name,
        ⟨⟨(storeInt (.num usd) 0 none).1⟩,
         (storeInt (.num change) 0 (storeInt (.num usd) 0 none).2).1⟩⟩,
       (storeInt (.num change) 0 (storeInt (.num usd) 0 none).2).2) := by
  rfl

theorem stepGecko_skip (st : GeckoPriceResults × Saved) (kv : String × JValue)
    (h : (keyMatches "id" kv.1 || keyMatches "symbol" kv.1 ||
      keyMatches "name" kv.1 || keyMatches "market_data" kv.1) = false) :
    stepGecko st kv = st := by
  simp only [Bool.or_eq_false_iff] at h
  obtain ⟨⟨⟨h1, h2⟩, h3⟩, h4⟩ := h
  simp [stepGecko, h1, h2, h3, h4]

theorem foldl_stepGecko_skip (members : List (String × JValue)) :
    ∀ st : GeckoPriceResults × Saved, noGeckoKey members = true →
      members.foldl stepGecko st = st := by
  induction members with
  | nil => intro st _; rfl
  | cons kv rest ih =>
    intro st h
    simp only [noGeckoKey, List.all_cons, Bool.and_eq_true, Bool.not_eq_true'] at h
    rw [List.foldl_cons, stepGecko_skip st kv h.1]
    exact ih st (by simpa [noGeckoKey] using h.2)

/-- A literal with a character that is not a digit is not read by the digit
loop. -/
theorem parseUintAux_none (cs : List Char) :
    ∀ acc, (∃ c ∈ cs, digitVal c = none) → parseUintAux cs acc = none := by
  induction cs with
  | nil => intro acc h; obtain ⟨c, hc, _⟩ := h; simp at hc
  | cons d ds ih =>
    intro acc h
    obtain ⟨c, hc, hv⟩ := h
    unfold parseUintAux
    cases hd : digitVal d with
    | none => rfl
    | some v =>
      simp only
      apply ih
      rcases List.mem_cons.mp hc with rfl | hmem
      · rw [hd] at hv; exact absurd hv (by simp)
      · exact ⟨c, hmem, hv⟩

theorem digitVal_fraction_char (c : Char)
    (h : (c.toNat = 46 || c.toNat = 101 || c.toNat = 69) = true) : digitVal c = none := by
  simp only [Bool.or_eq_true, decide_eq_true_eq] at h
  unfold digitVal
  rw [if_neg]
  omega

/-- The function `ParseInt` rejects a literal written with a fraction or an exponent. -/
theorem ParseInt_none_of_fraction (lit : String) (h : hasFractionOrExp lit = true) :
    ParseInt lit = none := by
  unfold hasFractionOrExp at h
  rw [List.any_eq_true] at h
  obtain ⟨c, hc, hf⟩ := h
  have hv : digitVal c = none := digitVal_fraction_char c hf
  unfold ParseInt
  cases hl : lit.toList with
  | nil => rfl
  | cons d ds =>
    rw [hl] at hc
    unfold parseIntChars
    simp only
    have hnone : parseUint (if d = '-' ∨ d = '+' then ds else d :: ds) = none := by
      by_cases hs : d = '-' ∨ d = '+'
      · rw [if_pos hs]
        have hcd : c ≠ d := by
          rintro rfl
          rcases hs with rfl | rfl <;> exact absurd hf (by decide)
        have hmem : c ∈ ds := by
          rcases List.mem_cons.mp hc with h1 | h1
          · exact absurd h1 hcd
          · exact h1
        cases ds with
        | nil => rfl
        | cons e es => exact parseUintAux_none _ 0 ⟨c, hmem, hv⟩
      · rw [if_neg hs]
        exact parseUintAux_none _ 0 ⟨c, hc, hv⟩
    rw [hnone]


/-- Decoding a body of the documented shape whose two number literals
`ParseInt` reads as `p` and `c`. -/
theorem Unmarshal_shape_of_ParseInt (body id symbol name usd change : String) (p c : Int)
    (hparse : parseJSON body = some (geckoShape id symbol name usd change))
    (hp : ParseInt usd = some p) (hc : ParseInt change = some c) :
    Unmarshal body GeckoPriceResults.zero = (⟨id, symbol, name, ⟨⟨p⟩, c⟩⟩, none) := by
  unfold Unmarshal
  rw [hparse]
  simp only [decodeGecko_shape, storeInt, hp, hc]

/-- C3, as stated, fails: for the not-found answer of the price API (status
404, body `{"error":"coin not found"}`) `GetCryptoPrice` returns the zero
price with a nil error. -/
theorem GetCryptoPrice_not_found_nil_error :
    GetCryptoPrice (cannedNet 404 notFoundBody) "nonesuch" =
      ⟨GeckoPriceResults.zero, none,
       [geckoRequest (sampleURL "https://api.coingecko.com/api/v3/coins/nonesuch")],
       [geckoRequest (sampleURL "https://api.coingecko.com/api/v3/coins/nonesuch")]⟩ := by
  decide

/-- C3, amended: `GetCryptoPrice` does not look at the status code.  For
every response, whatever its status, whose body is a JSON object without a
key that selects `id`, `symbol`, `name` or `market_data`, it returns the
zero-valued `GeckoPriceResults` and a nil error. -/
theorem GetCryptoPrice_ignores_status (net : Net) (ticker body : String) (status : Nat)
    (members : List (String × JValue)) (u : URL)
    (hurl : requestURL (geckoBase ++ ticker) = .ok u)
    (hdo : (net.Do (geckoRequest u)).result = .ok ⟨status, .ok body⟩)
    (hparse : parseJSON body = some (.obj members))
    (hkeys : noGeckoKey members = true) :
    GetCryptoPrice net ticker =
      ⟨GeckoPriceResults.zero, none, [geckoRequest u], (net.Do (geckoRequest u)).issued⟩ := by
  rw [GetCryptoPrice_decodes net ticker body u _ hurl hdo rfl]
  have hu : Unmarshal body GeckoPriceResults.zero = (GeckoPriceResults.zero, none) := by
    unfold Unmarshal
    rw [hparse]
    exact foldl_stepGecko_skip members _ hkeys
  rw [hu]

theorem GetCryptoPrice_ignores_status_witness :
    (requestURL (geckoBase ++ "nonesuch") =
       .ok (sampleURL "https://api.coingecko.com/api/v3/coins/nonesuch") ∧
     noGeckoKey [("error", JValue.str "coin not found")] = true) ∧
    (GetCryptoPrice (cannedNet 404 notFoundBody) "nonesuch").price = GeckoPriceResults.zero ∧
    (GetCryptoPrice (cannedNet 404 notFoundBody) "nonesuch").err = none :=
  ⟨⟨by rfl, by decide⟩,
   by
    have h := GetCryptoPrice_ignores_status (cannedNet 404 notFoundBody) "nonesuch"
      notFoundBody 404 [("error", JValue.str "coin not found")]
      (sampleURL "https://api.coingecko.com/api/v3/coins/nonesuch") (by rfl) rfl (by rfl)
      (by decide)
    rw [h]
    exact ⟨rfl, rfl⟩⟩

/-- C4, as stated, fails in its last sentence, both ways.  For a symbol with
a control character `http.NewRequest` fails with the `*url.Error` of
`url.Parse`, `client.Do` is not called and no request is issued; and in a
world where the first request is answered with a redirect that the client
follows, the one call of `client.Do` issues two requests. -/
theorem GetCryptoPrice_request_count_not_one :
    ((GetCryptoPrice (cannedNet 200 sampleBody) "bitcoin\n").calls = [] ∧
     (GetCryptoPrice (cannedNet 200 sampleBody) "bitcoin\n").wire = [] ∧
     (GetCryptoPrice (cannedNet 200 sampleBody) "bitcoin\n").err =
       some (.url ⟨"parse", utf8 "https://api.coingecko.com/api/v3/coins/bitcoin\n",
         .controlCharacter⟩)) ∧
    ((GetCryptoPrice (redirectingNet [redirectHop] 200 sampleBody) "bitcoin").calls.length = 1 ∧
     (GetCryptoPrice (redirectingNet [redirectHop] 200 sampleBody) "bitcoin").wire.length = 2 ∧
     (GetCryptoPrice (redirectingNet [redirectHop] 200 sampleBody) "bitcoin").err = none) := by
  decide

/-- C4, amended: the error is non-nil exactly when building the request, the
transport, reading the body or decoding the body fails; a transport failure
yields an error, and so does every body that `json.Unmarshal` cannot decode
into `GeckoPriceResults` (one that is not JSON gives the syntax error); when
no step fails the error is nil and the value is the decode of the body.
`GetCryptoPrice` calls `client.Do` once when the request could be built and
not at all otherwise, never a second time; the HTTP requests of the call are
the ones that call of `client.Do` issues. -/
theorem GetCryptoPrice_error_iff_step_fails (net : Net) (ticker : String) :
    ((GetCryptoPrice net ticker).err ≠ none ↔
      ((∃ e, requestURL (geckoBase ++ ticker) = .error e) ∨
       (∃ u msg, requestURL (geckoBase ++ ticker) = .ok u ∧
          (net.Do (geckoRequest u)).result = .error msg) ∨
       (∃ u resp msg, requestURL (geckoBase ++ ticker) = .ok u ∧
          (net.Do (geckoRequest u)).result = .ok resp ∧ resp.Body = .error msg) ∨
       (∃ u resp body, requestURL (geckoBase ++ ticker) = .ok u ∧
          (net.Do (geckoRequest u)).result = .ok resp ∧ resp.Body = .ok body ∧
          (Unmarshal body GeckoPriceResults.zero).2 ≠ none))) ∧
    (∀ u msg, requestURL (geckoBase ++ ticker) = .ok u →
      (net.Do (geckoRequest u)).result = .error msg →
      (GetCryptoPrice net ticker).err = some (.transport msg)) ∧
    (∀ u resp body, requestURL (geckoBase ++ ticker) = .ok u →
      (net.Do (geckoRequest u)).result = .ok resp → resp.Body = .ok body →
      (GetCryptoPrice net ticker).err = (Unmarshal body GeckoPriceResults.zero).2 ∧
      (GetCryptoPrice net ticker).price = (Unmarshal body GeckoPriceResults.zero).1 ∧
      (parseJSON body = none → (GetCryptoPrice net ticker).err = some .invalidJSON)) ∧
    (∀ u, requestURL (geckoBase ++ ticker) = .ok u →
      (GetCryptoPrice net ticker).calls = [geckoRequest u] ∧
      (GetCryptoPrice net ticker).wire = (net.Do (geckoRequest u)).issued) ∧
    (∀ e, requestURL (geckoBase ++ ticker) = .error e →
      (GetCryptoPrice net ticker).calls = [] ∧ (GetCryptoPrice net ticker).wire = [] ∧
      (GetCryptoPrice net ticker).err = some (.url e)) ∧
    (GetCryptoPrice net ticker).calls.length ≤ 1 := by
  cases hurl : requestURL (geckoBase ++ ticker) with
  | error e =>
    rw [GetCryptoPrice_build_fails net ticker e hurl]
    simp
  | ok u =>
    cases hdo : (net.Do (geckoRequest u)).result with
    | error msg =>
      rw [GetCryptoPrice_transport_fails net ticker msg u hurl hdo]
      refine ⟨?_, ?_, ?_, ?_, by simp, by simp⟩
      · simp only [ne_eq, reduceCtorEq, not_false_eq_true, true_iff]
        exact Or.inr (Or.inl ⟨u, msg, rfl, hdo⟩)
      · intro u2 msg2 h2 hd2
        cases h2
        rw [hdo] at hd2
        cases hd2
        rfl
      · intro u2 resp body h2 hd2 _
        cases h2
        rw [hdo] at hd2
        cases hd2
      · intro u2 h2
        cases h2
        exact ⟨rfl, rfl⟩
    | ok resp =>
      cases hbody : resp.Body with
      | error msg =>
        rw [GetCryptoPrice_read_fails net ticker msg u resp hurl hdo hbody]
        refine ⟨?_, ?_, ?_, ?_, by simp, by simp⟩
        · simp only [ne_eq, reduceCtorEq, not_false_eq_true, true_iff]
          exact Or.inr (Or.inr (Or.inl ⟨u, resp, msg, rfl, hdo, hbody⟩))
        · intro u2 msg2 h2 hd2
          cases h2
          rw [hdo] at hd2
          cases hd2
        · intro u2 resp2 body h2 hd2 hb2
          cases h2
          rw [hdo] at hd2
          cases hd2
          rw [hbody] at hb2
          cases hb2
        · intro u2 h2
          cases h2
          exact ⟨rfl, rfl⟩
      | ok body =>
        rw [GetCryptoPrice_decodes net ticker body u resp hurl hdo hbody]
        refine ⟨?_, ?_, ?_, ?_, by simp, by simp⟩
        · constructor
          · intro h
            exact Or.inr (Or.inr (Or.inr ⟨u, resp, body, rfl, hdo, hbody, h⟩))
          · rintro (⟨e, he⟩ | ⟨u2, msg, h2, hd2⟩ | ⟨u2, resp2, msg, h2, hd2, hb2⟩ |
              ⟨u2, resp2, body2, h2, hd2, hb2, hne⟩)
            · cases he
            · cases h2
              rw [hdo] at hd2
              cases hd2
            · cases h2
              rw [hdo] at hd2
              cases hd2
              rw [hbody] at hb2
              cases hb2
            · cases h2
              rw [hdo] at hd2
              cases hd2
              rw [hbody] at hb2
              cases hb2
              exact hne
        · intro u2 msg2 h2 hd2
          cases h2
          rw [hdo] at hd2
          cases hd2
        · intro u2 resp2 body2 h2 hd2 hb2
          cases h2
          rw [hdo] at hd2
          cases hd2
          rw [hbody] at hb2
          cases hb2
          refine ⟨rfl, rfl, fun hp => ?_⟩
          simp [Unmarshal, hp]
        · intro u2 h2
          cases h2
          exact ⟨rfl, rfl⟩

theorem GetCryptoPrice_error_iff_step_fails_witness :
    requestURL (geckoBase ++ "bitcoin") =
      .ok (sampleURL "https://api.coingecko.com/api/v3/coins/bitcoin") ∧
    (GetCryptoPrice (cannedNet 200 sampleBody) "bitcoin").calls =
      [geckoRequest (sampleURL "https://api.coingecko.com/api/v3/coins/bitcoin")] :=
  ⟨by rfl,
   ((GetCryptoPrice_error_iff_step_fails (cannedNet 200 sampleBody) "bitcoin").2.2.2.1
     (sampleURL "https://api.coingecko.com/api/v3/coins/bitcoin") (by rfl)).1⟩

theorem scanString_plain (s : List Char) :
    ∀ (fuel : Nat) (acc rest : List Char), (∀ c ∈ s, isPlainChar c = true) → s.length < fuel →
      scanString fuel acc (s ++ Char.ofNat 34 :: rest) = some (String.mk (acc.reverse ++ s), rest) := by
  induction s with
  | nil =>
    intro fuel acc rest _ hf
    obtain ⟨f, rfl⟩ : ∃ f, fuel = f + 1 := ⟨fuel - 1, by simp at hf; omega⟩
    simp [scanString]
  | cons c s ih =>
    intro fuel acc rest hp hf
    obtain ⟨f, rfl⟩ : ∃ f, fuel = f + 1 := ⟨fuel - 1, by simp at hf; omega⟩
    have hc := hp c (List.mem_cons_self c s)
    simp only [isPlainChar, Bool.and_eq_true, decide_eq_true_eq, bne_iff_ne, ne_eq] at hc
    obtain ⟨⟨h32, h34⟩, h92⟩ := hc
    have hlt : ¬ c.toNat < 32 := by omega
    simp only [List.cons_append, scanString, h34, h92, hlt, if_false]
    rw [ih f (c :: acc) rest (fun x hx => hp x (List.mem_cons_of_mem c hx))
      (by simp at hf; omega)]
    simp

theorem scanStringLit_plain (s rest : List Char) (hp : ∀ c ∈ s, isPlainChar c = true) :
    scanStringLit (s ++ Char.ofNat 34 :: rest) = some (String.mk s, rest) := by
  unfold scanStringLit
  rw [scanString_plain s _ [] rest hp (by simp; omega)]
  simp

/-! ## The scanner on the compact text of the documented shape -/

theorem isDigit_of_digitVal (c : Char) (d : Nat) (h : digitVal c = some d) : isDigit c = true := by
  unfold digitVal at h
  by_cases hc : 48 ≤ c.toNat ∧ c.toNat ≤ 57
  · simp [isDigit, hc.1, hc.2]
  · rw [if_neg hc] at h; exact absurd h (by simp)

theorem all_digits_of_parseUintAux (cs : List Char) :
    ∀ (acc n : Nat), parseUintAux cs acc = some n → ∀ c ∈ cs, isDigit c = true := by
  induction cs with
  | nil => intro _ _ _ c hc; simp at hc
  | cons d ds ih =>
    intro acc n h c hc
    unfold parseUintAux at h
    cases hd : digitVal d with
    | none => rw [hd] at h; exact absurd h (by simp)
    | some v =>
      rw [hd] at h
      rcases List.mem_cons.mp hc with rfl | hmem
      · exact isDigit_of_digitVal _ v hd
      · exact ih _ n h c hmem

theorem toDigits_all_digits (n : Nat) : ∀ c ∈ Nat.toDigits 10 n, isDigit c = true := by
  have hp := parseUint_toDigits n
  unfold parseUint at hp
  cases hl : Nat.toDigits 10 n with
  | nil => intro c hc; simp at hc
  | cons d ds =>
    rw [hl] at hp
    exact all_digits_of_parseUintAux (d :: ds) 0 n hp

theorem digitChar_ne_zero (m : Nat) (h0 : 0 < m) (h : m < 10) : (Nat.digitChar m).toNat ≠ 48 := by
  interval_cases m <;> decide

theorem toDigitsCore_head (fuel : Nat) :
    ∀ (n : Nat) (ds : List Char), n < fuel → 0 < n →
      ∃ d rest, Nat.toDigitsCore 10 fuel n ds = d :: rest ∧ d.toNat ≠ 48 := by
  induction fuel with
  | zero => intro n ds h; exact absurd h (Nat.not_lt_zero n)
  | succ fuel ih =>
    intro n ds h hpos
    unfold Nat.toDigitsCore
    by_cases h0 : n / 10 = 0
    · have hn : n % 10 = n := Nat.mod_eq_of_lt (by omega)
      refine ⟨Nat.digitChar (n % 10), ds, by simp [h0], ?_⟩
      rw [hn]
      exact digitChar_ne_zero n hpos (by omega)
    · simp only [h0, if_false]
      exact ih (n / 10) _ (by omega) (by omega)

theorem takeDigits_append (ds : List Char) (t : Char) (r : List Char)
    (hd : ∀ c ∈ ds, isDigit c = true) (ht : isDigit t = false) :
    takeDigits (ds ++ t :: r) = (ds, t :: r) := by
  induction ds with
  | nil => simp [takeDigits, ht]
  | cons d ds ih =>
    have h1 := hd d (List.mem_cons_self d ds)
    have h2 := ih (fun c hc => hd c (List.mem_cons_of_mem d hc))
    simp [takeDigits, h1, h2]

/-- The integer part of the decimal text of a natural number is all of it. -/
theorem scanIntPart_toDigits (n : Nat) (t : Char) (r : List Char) (ht : isDigit t = false) :
    scanIntPart (Nat.toDigits 10 n ++ t :: r) = some (Nat.toDigits 10 n, t :: r) := by
  rcases Nat.eq_zero_or_pos n with rfl | hpos
  · have : Nat.toDigits 10 0 = [Char.ofNat 48] := by decide
    rw [this]
    simp [scanIntPart]
  · obtain ⟨d, rest, hdr, hne⟩ := toDigitsCore_head (n + 1) n [] (Nat.lt_succ_self n) hpos
    have hall := toDigits_all_digits n
    have hdr2 : Nat.toDigits 10 n = d :: rest := hdr
    rw [hdr2] at hall ⊢
    have h1 := hall d (List.mem_cons_self d rest)
    have h2 := takeDigits_append rest t r (fun c hc => hall c (List.mem_cons_of_mem d hc)) ht
    simp [scanIntPart, hne, h1, h2]

theorem scanNumber_toDigits (n : Nat) (t : Char) (r : List Char) (ht : endsNumber t = true) :
    scanNumber (Nat.toDigits 10 n ++ t :: r) = some (Nat.toDigits 10 n, t :: r) ∧
    ∃ d rest, Nat.toDigits 10 n = d :: rest ∧ isDigit d = true := by
  simp only [endsNumber, Bool.and_eq_true, Bool.not_eq_true', bne_iff_ne, ne_eq] at ht
  obtain ⟨⟨⟨hd, h46⟩, h101⟩, h69⟩ := ht
  have hint := scanIntPart_toDigits n t r hd
  have hall := toDigits_all_digits n
  have hne : Nat.toDigits 10 n ≠ [] :=
    toDigitsCore_ne_nil (n + 1) n [] (Or.inl (Nat.succ_pos n))
  cases hl : Nat.toDigits 10 n with
  | nil => exact absurd hl hne
  | cons d rest =>
    rw [hl] at hint hall
    have hdd := hall d (List.mem_cons_self d rest)
    have h45 : d.toNat ≠ 45 := by
      simp only [isDigit, Bool.and_eq_true, decide_eq_true_eq] at hdd
      omega
    refine ⟨?_, d, rest, rfl, hdd⟩
    rw [List.cons_append] at hint
    simp [scanNumber, h45, hint, scanFrac, scanExp, h46, h101, h69]

theorem scanNumber_neg_toDigits (n : Nat) (t : Char) (r : List Char)
    (ht : endsNumber t = true) :
    scanNumber (Char.ofNat 45 :: (Nat.toDigits 10 n ++ t :: r)) =
      some (Char.ofNat 45 :: Nat.toDigits 10 n, t :: r) := by
  have hint := scanIntPart_toDigits n t r (by
    simp only [endsNumber, Bool.and_eq_true, Bool.not_eq_true'] at ht; exact ht.1.1.1)
  simp only [endsNumber, Bool.and_eq_true, Bool.not_eq_true', bne_iff_ne, ne_eq] at ht
  obtain ⟨⟨⟨_, h46⟩, h101⟩, h69⟩ := ht
  simp [scanNumber, hint, scanFrac, scanExp, h46, h101, h69]

theorem decimal_toList (p : Int) :
    (decimal p).toList = Nat.toDigits 10 p.toNat ∧ 0 ≤ p ∨
    (decimal p).toList = Char.ofNat 45 :: Nat.toDigits 10 p.natAbs ∧ p < 0 := by
  cases p with
  | ofNat m =>
    left
    refine ⟨?_, Int.ofNat_nonneg m⟩
    show (Nat.repr m).toList = _
    simp [Nat.repr, List.asString]
  | negSucc m =>
    right
    refine ⟨?_, Int.negSucc_lt_zero m⟩
    show ("-" ++ Nat.repr (m + 1)).toList = _
    simp [Nat.repr, List.asString, String.toList]

/-- A number in decimal text, followed by a character that ends it, is one
JSON value. -/
theorem parseValue_decimal (f d : Nat) (p : Int) (t : Char) (r : List Char)
    (ht : endsNumber t = true) :
    parseValue (f + 1) d ((decimal p).toList ++ t :: r) = some (.num (decimal p), t :: r) := by
  have hmk : String.mk (decimal p).toList = decimal p := rfl
  rcases decimal_toList p with ⟨hl, _⟩ | ⟨hl, _⟩
  · obtain ⟨hs, c0, rest, hcr, hdig⟩ := scanNumber_toDigits p.toNat t r ht
    rw [← hmk, hl]
    rw [hcr] at hs ⊢
    simp only [isDigit, Bool.and_eq_true, decide_eq_true_eq] at hdig
    have e1 : isSpace c0 = false := by simp [isSpace]; omega
    have e2 : c0.toNat ≠ 123 := by omega
    have e3 : c0.toNat ≠ 91 := by omega
    have e4 : c0.toNat ≠ 34 := by omega
    have e5 : c0.toNat ≠ 116 := by omega
    have e6 : c0.toNat ≠ 102 := by omega
    have e7 : c0.toNat ≠ 110 := by omega
    simp only [List.cons_append] at hs ⊢
    simp only [parseValue, skipWs, e1, e2, e3, e4, e5, e6, e7, if_false, Bool.false_eq_true,
      List.append_eq, hs]
  · have hs := scanNumber_neg_toDigits p.natAbs t r ht
    rw [← hmk, hl]
    simp only [List.cons_append] at hs ⊢
    have e1 : isSpace (Char.ofNat 45) = false := by decide
    have e2 : (Char.ofNat 45).toNat ≠ 123 := by decide
    have e3 : (Char.ofNat 45).toNat ≠ 91 := by decide
    have e4 : (Char.ofNat 45).toNat ≠ 34 := by decide
    have e5 : (Char.ofNat 45).toNat ≠ 116 := by decide
    have e6 : (Char.ofNat 45).toNat ≠ 102 := by decide
    have e7 : (Char.ofNat 45).toNat ≠ 110 := by decide
    simp only [parseValue, skipWs, e1, e2, e3, e4, e5, e6, e7, if_false, Bool.false_eq_true,
      List.append_eq, hs]

theorem parseValue_str (f d : Nat) (s rest : List Char) (hp : ∀ c ∈ s, isPlainChar c = true) :
    parseValue (f + 1) d (Char.ofNat 34 :: (s ++ Char.ofNat 34 :: rest)) =
      some (.str (String.mk s), rest) := by
  have e1 : isSpace (Char.ofNat 34) = false := by decide
  have e2 : (Char.ofNat 34).toNat ≠ 123 := by decide
  have e3 : (Char.ofNat 34).toNat ≠ 91 := by decide
  have e4 : (Char.ofNat 34).toNat = 34 := by decide
  simp [parseValue, skipWs, e1, e2, e3, e4, if_false, if_true, Bool.false_eq_true,
    scanStringLit_plain s rest hp]

theorem parseMembers_cons (f d : Nat) (key r2 r4 r5 : List Char) (v : JValue)
    (ms : List (String × JValue)) (hk : ∀ c ∈ key, isPlainChar c = true)
    (hv : parseValue f d r2 = some (v, Char.ofNat 44 :: r4))
    (hm : parseMembers f d r4 = some (ms, r5)) :
    parseMembers (f + 1) d (Char.ofNat 34 :: (key ++ Char.ofNat 34 :: Char.ofNat 58 :: r2)) =
      some ((String.mk key, v) :: ms, r5) := by
  have e1 : isSpace (Char.ofNat 34) = false := by decide
  have e4 : (Char.ofNat 34).toNat = 34 := by decide
  have e5 : isSpace (Char.ofNat 58) = false := by decide
  have e6 : (Char.ofNat 58).toNat = 58 := by decide
  have e7 : isSpace (Char.ofNat 44) = false := by decide
  have e8 : (Char.ofNat 44).toNat ≠ 125 := by decide
  have e9 : (Char.ofNat 44).toNat = 44 := by decide
  simp [parseMembers, skipWs, e1, e4, e5, e6, e7, e8, e9, if_false, if_true,
    Bool.false_eq_true, scanStringLit_plain key _ hk, hv, hm]

theorem parseMembers_last (f d : Nat) (key r2 r4 : List Char) (v : JValue)
    (hk : ∀ c ∈ key, isPlainChar c = true)
    (hv : parseValue f d r2 = some (v, Char.ofNat 125 :: r4)) :
    parseMembers (f + 1) d (Char.ofNat 34 :: (key ++ Char.ofNat 34 :: Char.ofNat 58 :: r2)) =
      some ([(String.mk key, v)], r4) := by
  have e1 : isSpace (Char.ofNat 34) = false := by decide
  have e4 : (Char.ofNat 34).toNat = 34 := by decide
  have e5 : isSpace (Char.ofNat 58) = false := by decide
  have e6 : (Char.ofNat 58).toNat = 58 := by decide
  have e7 : isSpace (Char.ofNat 125) = false := by decide
  have e8 : (Char.ofNat 125).toNat = 125 := by decide
  simp [parseMembers, skipWs, e1, e4, e5, e6, e7, e8, if_false, if_true,
    Bool.false_eq_true, scanStringLit_plain key _ hk, hv]

theorem parseValue_obj (f d : Nat) (r r2 : List Char) (ms : List (String × JValue))
    (hd : d + 1 ≤ maxNestingDepth)
    (hm : parseMembers f (d + 1) (Char.ofNat 34 :: r) = some (ms, r2)) :
    parseValue (f + 1) d (Char.ofNat 123 :: Char.ofNat 34 :: r) = some (.obj ms, r2) := by
  have e1 : isSpace (Char.ofNat 123) = false := by decide
  have e2 : (Char.ofNat 123).toNat = 123 := by decide
  have e3 : isSpace (Char.ofNat 34) = false := by decide
  have e4 : (Char.ofNat 34).toNat ≠ 125 := by decide
  have e5 : ¬ d + 1 > maxNestingDepth := by omega
  simp [parseValue, skipWs, e1, e2, e3, e4, e5, if_false, if_true, Bool.false_eq_true, hm]

theorem renderBody_toList (id symbol name : String) (p c : Int) :
    (renderBody id symbol name p c).toList =
      Char.ofNat 123 :: Char.ofNat 34 :: ("id".toList ++ Char.ofNat 34 :: Char.ofNat 58 ::
        Char.ofNat 34 :: (id.toList ++ Char.ofNat 34 :: Char.ofNat 44 ::
      Char.ofNat 34 :: ("symbol".toList ++ Char.ofNat 34 :: Char.ofNat 58 ::
        Char.ofNat 34 :: (symbol.toList ++ Char.ofNat 34 :: Char.ofNat 44 ::
      Char.ofNat 34 :: ("name".toList ++ Char.ofNat 34 :: Char.ofNat 58 ::
        Char.ofNat 34 :: (name.toList ++ Char.ofNat 34 :: Char.ofNat 44 ::
      Char.ofNat 34 :: ("market_data".toList ++ Char.ofNat 34 :: Char.ofNat 58 ::
        Char.ofNat 123 ::
        Char.ofNat 34 :: ("current_price".toList ++ Char.ofNat 34 :: Char.ofNat 58 ::
          Char.ofNat 123 ::
          Char.ofNat 34 :: ("usd".toList ++ Char.ofNat 34 :: Char.ofNat 58 ::
            ((decimal p).toList ++ Char.ofNat 125 :: Char.ofNat 44 ::
        Char.ofNat 34 :: ("price_change_24h".toList ++ Char.ofNat 34 :: Char.ofNat 58 ::
          ((decimal c).toList ++ Char.ofNat 125 :: Char.ofNat 125 :: [])))))))))))) := by
  simp [renderBody, String.toList, String.data_append]

theorem plain_keys :
    (∀ c ∈ "id".toList, isPlainChar c = true) ∧ (∀ c ∈ "symbol".toList, isPlainChar c = true) ∧
    (∀ c ∈ "name".toList, isPlainChar c = true) ∧
    (∀ c ∈ "market_data".toList, isPlainChar c = true) ∧
    (∀ c ∈ "current_price".toList, isPlainChar c = true) ∧
    (∀ c ∈ "usd".toList, isPlainChar c = true) ∧
    (∀ c ∈ "price_change_24h".toList, isPlainChar c = true) := by
  decide

theorem parseJSON_of_parseValue (body : String) (v : JValue) (k : Nat)
    (hk : 2 * body.length + 2 = k) (h : parseValue k 0 body.toList = some (v, [])) :
    parseJSON body = some v := by
  unfold parseJSON
  rw [hk, h]
  rfl

/-- The compact text of the documented shape is read as that shape. -/
theorem parseJSON_renderBody (id symbol name : String) (p c : Int)
    (hid : isPlain id = true) (hsym : isPlain symbol = true) (hname : isPlain name = true) :
    parseJSON (renderBody id symbol name p c) =
      some (geckoShape id symbol name (decimal p) (decimal c)) := by
  obtain ⟨k1, k2, k3, k4, k5, k6, k7⟩ := plain_keys
  have pid : ∀ x ∈ id.toList, isPlainChar x = true := by
    simpa [isPlain, List.all_eq_true] using hid
  have psym : ∀ x ∈ symbol.toList, isPlainChar x = true := by
    simpa [isPlain, List.all_eq_true] using hsym
  have pname : ∀ x ∈ name.toList, isPlainChar x = true := by
    simpa [isPlain, List.all_eq_true] using hname
  have hend : endsNumber (Char.ofNat 125) = true := by decide
  have hlen : ∃ k, 2 * (renderBody id symbol name p c).length + 2 = k + 12 := by
    refine ⟨2 * (renderBody id symbol name p c).length + 2 - 12, ?_⟩
    have : 5 ≤ (renderBody id symbol name p c).length := by
      show 5 ≤ (renderBody id symbol name p c).toList.length
      rw [renderBody_toList]
      simp
    omega
  obtain ⟨k, hk⟩ := hlen
  have hmax : maxNestingDepth = 10000 := rfl
  apply parseJSON_of_parseValue _ _ (k + 12) hk
  rw [renderBody_toList]
  refine parseValue_obj (k + 11) 0 _ _ _ (by omega) ?_
  refine parseMembers_cons (k + 10) 1 "id".toList _ _ _ (.str id) _ k1
    (parseValue_str (k + 9) 1 id.toList _ pid) ?_
  refine parseMembers_cons (k + 9) 1 "symbol".toList _ _ _ (.str symbol) _ k2
    (parseValue_str (k + 8) 1 symbol.toList _ psym) ?_
  refine parseMembers_cons (k + 8) 1 "name".toList _ _ _ (.str name) _ k3
    (parseValue_str (k + 7) 1 name.toList _ pname) ?_
  refine parseMembers_last (k + 7) 1 "market_data".toList _ _ _ k4 ?_
  refine parseValue_obj (k + 6) 1 _ _ _ (by omega) ?_
  refine parseMembers_cons (k + 5) 2 "current_price".toList _
    (Char.ofNat 34 :: ("price_change_24h".toList ++ Char.ofNat 34 :: Char.ofNat 58 ::
      ((decimal c).toList ++ [Char.ofNat 125, Char.ofNat 125]))) _ _ _ k5 ?_ ?_
  · refine parseValue_obj (k + 4) 2 _ _ _ (by omega) ?_
    exact parseMembers_last (k + 3) 3 "usd".toList _ _ _ k6
      (parseValue_decimal (k + 2) 3 p _ _ hend)
  · exact parseMembers_last (k + 4) 2 "price_change_24h".toList _ _ _ k7
      (parseValue_decimal (k + 3) 2 c _ _ hend)

/-- C5: for strings `id`, `symbol`, `name` and integers `p` and `c` of type
`int` (64 bits, `c` possibly negative), every body that is a JSON text of
the documented shape with those strings and the decimal text of `p` and `c`
decodes without error into the value with those strings,
`MarketData.CurrentPrice.USD = p` and `MarketData.PriceChange = c`, and
`GetCryptoPrice` returns that value and a nil error for a response with
that body; the compact text of the shape is such a body whenever the strings
need no escaping. -/
theorem Unmarshal_well_formed_body (id symbol name : String) (p c : Int)
    (hp : -2 ^ 63 ≤ p ∧ p < 2 ^ 63) (hc : -2 ^ 63 ≤ c ∧ c < 2 ^ 63) :
    (∀ body : String,
      parseJSON body = some (geckoShape id symbol name (decimal p) (decimal c)) →
      Unmarshal body GeckoPriceResults.zero = (⟨id, symbol, name, ⟨⟨p⟩, c⟩⟩, none) ∧
      ∀ (net : Net) (ticker : String) (u : URL) (resp : Response),
        requestURL (geckoBase ++ ticker) = .ok u →
        (net.Do (geckoRequest u)).result = .ok resp → resp.Body = .ok body →
        GetCryptoPrice net ticker =
          ⟨⟨id, symbol, name, ⟨⟨p⟩, c⟩⟩, none, [geckoRequest u],
           (net.Do (geckoRequest u)).issued⟩) ∧
    (isPlain id = true → isPlain symbol = true → isPlain name = true →
      Unmarshal (renderBody id symbol name p c) GeckoPriceResults.zero =
        (⟨id, symbol, name, ⟨⟨p⟩, c⟩⟩, none)) := by
  have key : ∀ body : String,
      parseJSON body = some (geckoShape id symbol name (decimal p) (decimal c)) →
      Unmarshal body GeckoPriceResults.zero = (⟨id, symbol, name, ⟨⟨p⟩, c⟩⟩, none) :=
    fun body hparse =>
      Unmarshal_shape_of_ParseInt body id symbol name (decimal p) (decimal c) p c hparse
        (ParseInt_decimal p hp.1 hp.2) (ParseInt_decimal c hc.1 hc.2)
  refine ⟨fun body hparse => ⟨key body hparse, fun net ticker u resp hurl hdo hbody => ?_⟩,
    fun hid hsym hname => key _ (parseJSON_renderBody id symbol name p c hid hsym hname)⟩
  rw [GetCryptoPrice_decodes net ticker body u resp hurl hdo hbody, key body hparse]

theorem Unmarshal_well_formed_body_witness :
    ((-2 ^ 63 ≤ (65000 : Int) ∧ (65000 : Int) < 2 ^ 63) ∧
     (-2 ^ 63 ≤ (-1200 : Int) ∧ (-1200 : Int) < 2 ^ 63) ∧
     parseJSON sampleBody =
       some (geckoShape "bitcoin" "btc" "Bitcoin" (decimal 65000) (decimal (-1200))) ∧
     renderBody "bitcoin" "btc" "Bitcoin" 65000 (-1200) = sampleBody) ∧
    Unmarshal sampleBody GeckoPriceResults.zero =
      (⟨"bitcoin", "btc", "Bitcoin", ⟨⟨65000⟩, -1200⟩⟩, none) :=
  ⟨⟨by decide, by decide, by rfl, by decide⟩,
   ((Unmarshal_well_formed_body "bitcoin" "btc" "Bitcoin" 65000 (-1200)
     (by decide) (by decide)).1 sampleBody (by rfl)).1⟩

/-- C6, as stated, fails: for the sample body with the prices 65000.75 and
-1200.5 `GetCryptoPrice` returns a type error, and the two numeric fields
are 0, not 65000 and -1200. -/
theorem GetCryptoPrice_fraction_not_truncated :
    (GetCryptoPrice (cannedNet 200 fractionalBody) "bitcoin").err =
      some (.unmarshalType "number 65000.75" "int") ∧
    (GetCryptoPrice (cannedNet 200 fractionalBody) "bitcoin").price.MarketData.CurrentPrice.USD
      = 0 ∧
    (GetCryptoPrice (cannedNet 200 fractionalBody) "bitcoin").price.MarketData.PriceChange
      = 0 := by
  decide

/-- C6, amended: numeric fields are decoded as integers and nothing is
truncated.  For every body of the documented shape whose usd price or
price_change_24h is a number literal with a fraction or an exponent,
decoding fails with the type error of the first of the two literals that
`ParseInt` rejects, the field of a literal with a fraction or an exponent
stays 0, and `GetCryptoPrice` returns that error. -/
theorem GetCryptoPrice_rejects_fraction (body id symbol name usd change : String)
    (hparse : parseJSON body = some (geckoShape id symbol name usd change))
    (hfrac : hasFractionOrExp usd = true ∨ hasFractionOrExp change = true) :
    (∃ lit, (lit = usd ∨ lit = change) ∧ ParseInt lit = none ∧
      (Unmarshal body GeckoPriceResults.zero).2 =
        some (.unmarshalType ("number " ++ lit) "int")) ∧
    (hasFractionOrExp usd = true →
      (Unmarshal body GeckoPriceResults.zero).2 =
        some (.unmarshalType ("number " ++ usd) "int") ∧
      (Unmarshal body GeckoPriceResults.zero).1.MarketData.CurrentPrice.USD = 0) ∧
    (hasFractionOrExp change = true →
      (Unmarshal body GeckoPriceResults.zero).1.MarketData.PriceChange = 0) ∧
    ∀ (net : Net) (ticker : String) (u : URL) (resp : Response),
      requestURL (geckoBase ++ ticker) = .ok u →
      (net.Do (geckoRequest u)).result = .ok resp → resp.Body = .ok body →
      (GetCryptoPrice net ticker).err = (Unmarshal body GeckoPriceResults.zero).2 ∧
      (GetCryptoPrice net ticker).err ≠ none := by
  have hu : Unmarshal body GeckoPriceResults.zero =
      (⟨id, symbol, name,
        ⟨⟨(storeInt (.num usd) 0 none).1⟩,
         (storeInt (.num change) 0 (storeInt (.num usd) 0 none).2).1⟩⟩,
       (storeInt (.num change) 0 (storeInt (.num usd) 0 none).2).2) := by
    unfold Unmarshal
    rw [hparse]
    exact decodeGecko_shape id symbol name usd change
  have husd : hasFractionOrExp usd = true →
      (Unmarshal body GeckoPriceResults.zero).2 =
        some (.unmarshalType ("number " ++ usd) "int") ∧
      (Unmarshal body GeckoPriceResults.zero).1.MarketData.CurrentPrice.USD = 0 := by
    intro h
    have hn := ParseInt_none_of_fraction usd h
    rw [hu]
    cases hc : ParseInt change <;> simp [storeInt, hn, hc, saveError]
  have hchange : hasFractionOrExp change = true →
      (Unmarshal body GeckoPriceResults.zero).1.MarketData.PriceChange = 0 := by
    intro h
    have hn := ParseInt_none_of_fraction change h
    rw [hu]
    simp [storeInt, hn]
  have hex : ∃ lit, (lit = usd ∨ lit = change) ∧ ParseInt lit = none ∧
      (Unmarshal body GeckoPriceResults.zero).2 =
        some (.unmarshalType ("number " ++ lit) "int") := by
    by_cases h1 : hasFractionOrExp usd = true
    · exact ⟨usd, Or.inl rfl, ParseInt_none_of_fraction usd h1, (husd h1).1⟩
    · have h2 : hasFractionOrExp change = true := hfrac.resolve_left h1
      have hn := ParseInt_none_of_fraction change h2
      cases hp : ParseInt usd with
      | some p =>
        refine ⟨change, Or.inr rfl, hn, ?_⟩
        rw [hu]
        simp [storeInt, hn, hp, saveError]
      | none =>
        refine ⟨usd, Or.inl rfl, hp, ?_⟩
        rw [hu]
        simp [storeInt, hn, hp, saveError]
  refine ⟨hex, husd, hchange, fun net ticker u resp hurl hdo hbody => ?_⟩
  rw [GetCryptoPrice_decodes net ticker body u resp hurl hdo hbody]
  refine ⟨rfl, ?_⟩
  obtain ⟨lit, _, _, he⟩ := hex
  simp [he]


theorem GetCryptoPrice_rejects_fraction_witness :
    (parseJSON fractionalBody =
       some (geckoShape "bitcoin" "btc" "Bitcoin" "65000.75" "-1200.5") ∧
     (hasFractionOrExp "65000.75" = true ∨ hasFractionOrExp "-1200.5" = true)) ∧
    (Unmarshal fractionalBody GeckoPriceResults.zero).2 =
      some (.unmarshalType ("number " ++ "65000.75") "int") ∧
    (Unmarshal fractionalBody GeckoPriceResults.zero).1.MarketData.CurrentPrice.USD = 0 :=
  ⟨⟨by rfl, Or.inl (by decide)⟩,
   (GetCryptoPrice_rejects_fraction fractionalBody "bitcoin" "btc" "Bitcoin" "65000.75"
     "-1200.5" (by rfl) (Or.inl (by decide))).2.1 (by decide)⟩

/-- C10, as stated, fails: the URL of the request is what `url.Parse` makes
of the text, not the text.  For the symbol `a b` the request URL reads
`.../coins/a%20b`; for the symbol `bit?x=1#frag` the last path segment is
`bit`, with `x=1` as query and `frag` as fragment. -/
theorem GetCryptoPrice_url_not_verbatim :
    ((GetCryptoPrice (cannedNet 200 sampleBody) "a b").calls.map (fun r => r.URL.render) =
       [utf8 "https://api.coingecko.com/api/v3/coins/a%20b"] ∧
     utf8 "https://api.coingecko.com/api/v3/coins/a%20b" ≠
       utf8 ("https://api.coingecko.com/api/v3/coins/" ++ "a b")) ∧
    ((GetCryptoPrice (cannedNet 200 sampleBody) "bit?x=1#frag").calls.map
        (fun r => (lastSegment r.URL.Path, r.URL.RawQuery, r.URL.Fragment)) =
       [(utf8 "bit", utf8 "x=1", utf8 "frag")] ∧
     utf8 "bit" ≠ utf8 "bit?x=1#frag") := by
  decide

/-- C10, amended: for every symbol the URL text handed to `http.NewRequest`
is the endpoint followed by the symbol, character for character, with
method GET and a nil body; every request handed to `client.Do` has method
GET, the headers `User-Agent: Mozilla/5.0` and `Accept: application/json`,
no body, and as URL what `url.Parse` makes of that text; a text `url.Parse`
rejects gives no request.  When the symbol is a path segment written
without escapes (letters, digits and `- . _ ~ ! $ & ' ( ) * + , ; = : @`),
one request is handed over and its URL reads exactly the endpoint followed
by the symbol, the symbol being the last path segment, with no query and no
fragment. -/
theorem GetCryptoPrice_request (net : Net) (ticker : String) :
    Sprintf GeckoURL ticker = "https://api.coingecko.com/api/v3/coins/" ++ ticker ∧
    (∀ req ∈ (GetCryptoPrice net ticker).calls,
      req.Method = "GET" ∧
      req.Header = [("User-Agent", ["Mozilla/5.0"]), ("Accept", ["application/json"])] ∧
      req.Body = none ∧
      requestURL ("https://api.coingecko.com/api/v3/coins/" ++ ticker) = .ok req.URL) ∧
    (∀ e, requestURL ("https://api.coingecko.com/api/v3/coins/" ++ ticker) = .error e →
      (GetCryptoPrice net ticker).calls = [] ∧
      (GetCryptoPrice net ticker).err = some (.url e)) ∧
    (isSegment ticker = true →
      ∃ req, (GetCryptoPrice net ticker).calls = [req] ∧
        req.URL.render = utf8 ("https://api.coingecko.com/api/v3/coins/" ++ ticker) ∧
        req.URL.Scheme = utf8 "https" ∧ req.URL.Host = utf8 "api.coingecko.com" ∧
        req.URL.Path = utf8 ("/api/v3/coins/" ++ ticker) ∧
        lastSegment req.URL.Path = utf8 ticker ∧
        req.URL.RawQuery = [] ∧ req.URL.Fragment = [] ∧
        req.URL.RequestURI = utf8 ("/api/v3/coins/" ++ ticker)) := by
  have hcalls : ∀ u, requestURL (geckoBase ++ ticker) = .ok u →
      (GetCryptoPrice net ticker).calls = [geckoRequest u] := by
    intro u hurl
    cases hdo : (net.Do (geckoRequest u)).result with
    | error msg => rw [GetCryptoPrice_transport_fails net ticker msg u hurl hdo]
    | ok resp =>
      cases hbody : resp.Body with
      | error msg => rw [GetCryptoPrice_read_fails net ticker msg u resp hurl hdo hbody]
      | ok body => rw [GetCryptoPrice_decodes net ticker body u resp hurl hdo hbody]
  refine ⟨Sprintf_GeckoURL ticker, ?_, ?_, ?_⟩
  · intro req hreq
    cases hurl : requestURL (geckoBase ++ ticker) with
    | error e =>
      rw [GetCryptoPrice_build_fails net ticker e hurl] at hreq
      simp at hreq
    | ok u =>
      rw [hcalls u hurl] at hreq
      have hr : req = geckoRequest u := by simpa using hreq
      subst hr
      exact ⟨rfl, rfl, rfl, hurl⟩
  · intro e he
    have he2 : requestURL (geckoBase ++ ticker) = .error e := he
    rw [GetCryptoPrice_build_fails net ticker e he2]
    exact ⟨rfl, rfl⟩
  · intro hseg
    obtain ⟨u, hu, h1, h2, h3, h4, h5, h6, h7, h8⟩ := requestURL_segment ticker hseg
    exact ⟨geckoRequest u, hcalls u hu, h1, h2, h3, h4, h5, h6, h7, h8⟩

theorem GetCryptoPrice_request_witness :
    isSegment "bitcoin" = true ∧
    ∃ req, (GetCryptoPrice (cannedNet 200 sampleBody) "bitcoin").calls = [req] ∧
      req.URL.render = utf8 ("https://api.coingecko.com/api/v3/coins/" ++ "bitcoin") :=
  ⟨by decide,
   by
    obtain ⟨req, h1, h2, _⟩ :=
      (GetCryptoPrice_request (cannedNet 200 sampleBody) "bitcoin").2.2.2 (by decide)
    exact ⟨req, h1, h2⟩⟩

end StockTicker
